import Mathlib

/-!
The early-suspend backend of libsuspend (`autosuspend_earlysuspend.cpp`).

A shallow embedding of `src/libsuspend/autosuspend_earlysuspend.cpp`.

* System calls are answered by the environment: every call site receives the
  outcomes the kernel gives to its successive attempts (`SysRet`).
* The sequential code (`wait_for_fb_wake`, `wait_for_fb_sleep`,
  `start_earlysuspend_thread`, `autosuspend_earlysuspend_init`) is written as
  state-passing functions which also record the system calls they make.
* The concurrent part (the watcher thread `earlysuspend_thread_func` and the
  threads calling `enable` / `disable` / `force_suspend` /
  `set_wakeup_callback`) is a step function on a `World`; the scheduler and the
  kernel are the `Action` taken at each step.
-/

namespace Earlysuspend

/-! ## Data model -/

/-- The anonymous enum of lines 28-31; `EARLYSUSPEND_ON` is the initial value. -/
inductive Phase where
  | EARLYSUSPEND_ON
  | EARLYSUSPEND_MEM
  deriving DecidableEq, Repr

/-- Outcome of one attempt of a system call: the returned value and `errno`. -/
structure SysRet where
  ret : Int
  errno : Int
  deriving DecidableEq, Repr

/-- Linux `EINTR`. -/
def EINTR : Int := 4

/-- Linux `EBADF`. -/
def EBADF : Int := 9

/-- The three files of lines 17-19. -/
inductive Path where
  | EARLYSUSPEND_SYS_POWER_STATE
  | EARLYSUSPEND_WAIT_FOR_FB_SLEEP
  | EARLYSUSPEND_WAIT_FOR_FB_WAKE
  deriving DecidableEq, Repr

/-- Line 22. -/
def pwr_state_mem : String := "mem"

/-- Line 23. -/
def pwr_state_on : String := "on"

/-- C `strlen` on a string without an embedded NUL. -/
def strlen (s : String) : Nat := s.length

/-- Who performs an action: the thread running `autosuspend_earlysuspend_init`,
the watcher thread, or the thread of the facade call number `tid`. -/
inductive Actor where
  | init
  | watcher
  | caller (tid : Nat)
  deriving DecidableEq, Repr

/-- What the code does to the outside world and to the shared phase. A system
call is recorded once per attempt, with the outcome of that attempt. -/
inductive Event where
  | sysOpen (path : Path) (r : SysRet)
  | sysWrite (fd : Int) (bytes : List Char) (r : SysRet)
  | sysRead (path : Path) (fd : Int) (r : SysRet)
  | sysClose (fd : Int)
  | sysAccess (path : Path) (r : SysRet)
  | threadCreate (r : Int)
  | lock
  | unlock
  | condWait
  | condSignal (woken : Option Nat)
  | assign (p : Phase)
  deriving DecidableEq, Repr

/-- The file-scope variables of lines 21-31 that the code reads and writes. -/
structure Globals where
  sPowerStatefd : Int
  wait_for_earlysuspend : Bool
  earlysuspend_state : Phase
  deriving DecidableEq, Repr

/-- Static initialisation: lines 21, 27 (zero-initialised) and 31. -/
def Globals.initial : Globals :=
  { sPowerStatefd := 0, wait_for_earlysuspend := false,
    earlysuspend_state := Phase.EARLYSUSPEND_ON }

/-- The libc macro `TEMP_FAILURE_RETRY(exp)`: evaluate `exp` again while it
returns `-1` with `errno == EINTR`. `outs` are the outcomes of the successive
attempts; the result is the outcome of the last attempt together with all the
attempts made, or `none` when every outcome supplied was an interruption (the
call has not returned). -/
def TEMP_FAILURE_RETRY : List SysRet → Option (SysRet × List SysRet)
  | [] => none
  | r :: rest =>
    if r.ret = -1 ∧ r.errno = EINTR then
      match TEMP_FAILURE_RETRY rest with
      | none => none
      | some (final, attempts) => some (final, r :: attempts)
    else some (r, [r])

/-- The kernel refuses to read from a descriptor that is not open: `read` on a
negative descriptor fails with `EBADF` whatever the file would have answered
(the source relies on it, lines 38 and 51). -/
def readOutcomes (fd : Int) (readOuts : List SysRet) : List SysRet :=
  if fd < 0 then [{ ret := -1, errno := EBADF }] else readOuts

/-- Lines 33-44. Returns the function's result and the system calls made. -/
def wait_for_fb_wake (openOuts readOuts : List SysRet) : Option (Int × List Event) :=
  match TEMP_FAILURE_RETRY openOuts with
  | none => none
  | some (fd, opens) =>
    match TEMP_FAILURE_RETRY (readOutcomes fd.ret readOuts) with
    | none => none
    | some (err, reads) =>
      some (if err.ret < 0 then err.ret else 0,
        opens.map (Event.sysOpen Path.EARLYSUSPEND_WAIT_FOR_FB_WAKE)
          ++ reads.map (Event.sysRead Path.EARLYSUSPEND_WAIT_FOR_FB_WAKE fd.ret)
          ++ [Event.sysClose fd.ret])

/-- Lines 46-57. Returns the function's result and the system calls made. -/
def wait_for_fb_sleep (openOuts readOuts : List SysRet) : Option (Int × List Event) :=
  match TEMP_FAILURE_RETRY openOuts with
  | none => none
  | some (fd, opens) =>
    match TEMP_FAILURE_RETRY (readOutcomes fd.ret readOuts) with
    | none => none
    | some (err, reads) =>
      some (if err.ret < 0 then err.ret else 0,
        opens.map (Event.sysOpen Path.EARLYSUSPEND_WAIT_FOR_FB_SLEEP)
          ++ reads.map (Event.sysRead Path.EARLYSUSPEND_WAIT_FOR_FB_SLEEP fd.ret)
          ++ [Event.sysClose fd.ret])

/-! ## Initialisation -/

/-- The four operations of the table of lines 148-153. -/
inductive Op where
  | autosuspend_earlysuspend_enable
  | autosuspend_earlysuspend_disable
  | force_suspend (timeout_ms : Int)
  | autosuspend_set_wakeup_callback
  deriving DecidableEq, Repr

/-- Names of the functions a table entry can point to. -/
inductive Fn where
  | autosuspend_earlysuspend_enable
  | autosuspend_earlysuspend_disable
  | force_suspend
  | autosuspend_set_wakeup_callback
  deriving DecidableEq, Repr

/-- The `struct autosuspend_ops` of `autosuspend_ops.h`, as used at lines 148-153. -/
structure autosuspend_ops where
  enable : Fn
  disable : Fn
  force_suspend : Fn
  set_wakeup_callback : Fn
  deriving DecidableEq, Repr

/-- Lines 148-153. -/
def autosuspend_earlysuspend_ops : autosuspend_ops :=
  { enable := Fn.autosuspend_earlysuspend_enable,
    disable := Fn.autosuspend_earlysuspend_disable,
    force_suspend := Fn.force_suspend,
    set_wakeup_callback := Fn.autosuspend_set_wakeup_callback }

/-- What the kernel and the thread library answer during initialisation. -/
structure InitEnv where
  /-- attempts of `open("/sys/power/state", O_RDWR)`, line 188 -/
  openState : List SysRet
  /-- attempts of `write(sPowerStatefd, "on", 2)`, line 196 -/
  writeOn : List SysRet
  /-- outcome of `access(EARLYSUSPEND_WAIT_FOR_FB_SLEEP, F_OK)`, line 160 -/
  accessSleep : SysRet
  /-- outcome of `access(EARLYSUSPEND_WAIT_FOR_FB_WAKE, F_OK)`, line 165 -/
  accessWake : SysRet
  /-- attempts of the `open` inside `wait_for_fb_wake()`, line 170 -/
  openWake : List SysRet
  /-- attempts of the `read` inside `wait_for_fb_wake()`, line 170 -/
  readWake : List SysRet
  /-- value returned by `pthread_create`, line 173 -/
  threadCreate : Int

/-- The state threaded through initialisation: the globals, whether the watcher
thread exists, and the system calls made so far (oldest first). -/
structure InitState where
  g : Globals
  watcherStarted : Bool
  trace : List (Actor × Event)
  deriving DecidableEq, Repr

/-- Record events of the initialising thread. -/
def InitState.log (s : InitState) (evs : List Event) : InitState :=
  { s with trace := s.trace ++ evs.map (fun e => (Actor.init, e)) }

/-- Lines 155-181. `none`: the call has not returned (blocked in
`wait_for_fb_wake`). -/
def start_earlysuspend_thread (env : InitEnv) (s : InitState) : Option InitState :=
  let s := s.log [Event.sysAccess Path.EARLYSUSPEND_WAIT_FOR_FB_SLEEP env.accessSleep]
  if env.accessSleep.ret < 0 then some s
  else
    let s := s.log [Event.sysAccess Path.EARLYSUSPEND_WAIT_FOR_FB_WAKE env.accessWake]
    if env.accessWake.ret < 0 then some s
    else
      match wait_for_fb_wake env.openWake env.readWake with
      | none => none
      | some (_, evs) =>
        let s := s.log evs
        let s := s.log [Event.threadCreate env.threadCreate]
        if env.threadCreate ≠ 0 then some s
        else
          some { s with watcherStarted := true,
                        g := { s.g with wait_for_earlysuspend := true } }

/-- Result of `autosuspend_earlysuspend_init`: the returned pointer (`none` is
`NULL`) and the state it leaves. -/
structure InitResult where
  ops : Option autosuspend_ops
  s : InitState
  deriving DecidableEq, Repr

/-- Lines 183-212. `none`: the call has not returned. -/
def autosuspend_earlysuspend_init (env : InitEnv) (s : InitState) : Option InitResult :=
  match TEMP_FAILURE_RETRY env.openState with
  | none => none
  | some (fd, opens) =>
    let s := { s with g := { s.g with sPowerStatefd := fd.ret } }
    let s := s.log (opens.map (Event.sysOpen Path.EARLYSUSPEND_SYS_POWER_STATE))
    if fd.ret < 0 then some { ops := none, s := s }
    else
      match TEMP_FAILURE_RETRY env.writeOn with
      | none => none
      | some (ret, writes) =>
        let s := s.log (writes.map (Event.sysWrite s.g.sPowerStatefd ("on".toList.take 2)))
        if ret.ret < 0 then
          some { ops := none, s := s.log [Event.sysClose s.g.sPowerStatefd] }
        else
          match start_earlysuspend_thread env s with
          | none => none
          | some s => some { ops := some autosuspend_earlysuspend_ops, s := s }

/-- The state in which `autosuspend_earlysuspend_init` is entered. -/
def InitState.initial : InitState :=
  { g := Globals.initial, watcherStarted := false, trace := [] }

/-! ## Threads -/

/-- Where a facade call stands. -/
inductive CallPc where
  /-- entered, the write (line 88 / 118) not made yet -/
  | start
  /-- at `pthread_mutex_lock` (line 96 / 126), the mutex not yet obtained -/
  | lock
  /-- holding the mutex, at the loop test (line 97 / 127) -/
  | check
  /-- inside `pthread_cond_wait` (line 98 / 128), blocked on the condition -/
  | waiting
  /-- inside `pthread_cond_wait`, woken up, the mutex not yet obtained again -/
  | reacquire
  /-- holding the mutex after the loop, at `pthread_mutex_unlock` (line 100 / 130) -/
  | unlock
  /-- the mutex released, at `return 0` (line 105 / 135) -/
  | unlocked
  /-- returned `ret` -/
  | done (ret : Int)
  /-- returned from a `void` function -/
  | returned
  deriving DecidableEq, Repr

/-- One facade call made by the host controller, on a thread of its own. -/
structure Call where
  op : Op
  pc : CallPc
  deriving DecidableEq, Repr

/-- Where the watcher thread `earlysuspend_thread_func` stands (lines 59-80). -/
inductive WatcherPc where
  /-- no thread was created -/
  | notStarted
  /-- line 62, in `wait_for_fb_sleep()` -/
  | sleepRead
  /-- line 66 -/
  | memLock
  /-- line 67 -/
  | memSet
  /-- line 68 -/
  | memSignal
  /-- line 69 -/
  | memUnlock
  /-- line 71, in `wait_for_fb_wake()` -/
  | wakeRead
  /-- line 75 -/
  | onLock
  /-- line 76 -/
  | onSet
  /-- line 77 -/
  | onSignal
  /-- line 78 -/
  | onUnlock
  /-- returned `NULL` at line 64 or 73 -/
  | exited
  deriving DecidableEq, Repr

/-- The whole system: the globals, the owner of `earlysuspend_mutex`, the
watcher, the facade calls, and everything done so far (oldest first). The
threads blocked on `earlysuspend_cond` are the calls at `CallPc.waiting`. -/
structure World extends Globals where
  mutex : Option Actor
  watcher : WatcherPc
  calls : List Call
  trace : List (Actor × Event)
  deriving DecidableEq, Repr

/-- Record events of actor `a`. -/
def World.log (w : World) (a : Actor) (evs : List Event) : World :=
  { w with trace := w.trace ++ evs.map (fun e => (a, e)) }

/-- Move call number `tid` of a list to `pc`. -/
def setPcAt : List Call → Nat → CallPc → List Call
  | [], _, _ => []
  | c :: cs, 0, pc => { c with pc := pc } :: cs
  | c :: cs, n + 1, pc => c :: setPcAt cs n pc

/-- Move call number `tid` to `pc`. -/
def World.setPc (w : World) (tid : Nat) (pc : CallPc) : World :=
  { w with calls := setPcAt w.calls tid pc }

/-- The calls blocked on the condition, numbered from `i`. -/
def waitersFrom : Nat → List Call → List Nat
  | _, [] => []
  | i, c :: cs =>
    if c.pc = CallPc.waiting then i :: waitersFrom (i + 1) cs else waitersFrom (i + 1) cs

/-- POSIX `pthread_mutex_lock`: returns once the mutex is free, and takes it. -/
def pthread_mutex_lock (a : Actor) (w : World) : Option World :=
  if w.mutex = none then some ({ w with mutex := some a }.log a [Event.lock]) else none

/-- POSIX `pthread_mutex_unlock`: the mutex becomes free. -/
def pthread_mutex_unlock (a : Actor) (w : World) : World :=
  { w with mutex := none }.log a [Event.unlock]

/-- POSIX `pthread_cond_wait`, first half: release the mutex and block on the
condition. The second half (wake up, take the mutex again) is
`CallPc.waiting → CallPc.reacquire → CallPc.check`. -/
def pthread_cond_wait (tid : Nat) (w : World) : World :=
  ({ w with mutex := none }.setPc tid CallPc.waiting).log (Actor.caller tid) [Event.condWait]

/-- POSIX `pthread_cond_signal`: when threads are blocked on the condition, one of
them, chosen by the thread library (`pick`), is unblocked. (Further threads may
wake up at any time: `Action.spurious`.) -/
def pthread_cond_signal (a : Actor) (pick : Nat) (w : World) : World :=
  let ws := waitersFrom 0 w.calls
  match ws[pick % ws.length]? with
  | none => w.log a [Event.condSignal none]
  | some tid => (w.setPc tid CallPc.reacquire).log a [Event.condSignal (some tid)]

/-- Lines 81-109, one step of call `tid` standing at `pc`. `outs` are the
outcomes of the attempts of the system call made in this step, if it makes one.
`none`: the thread cannot move (blocked, or returned). -/
def autosuspend_earlysuspend_enable (tid : Nat) (pc : CallPc) (outs : List SysRet)
    (w : World) : Option World :=
  match pc with
  | CallPc.start =>
    match outs with
    | [] => none
    | ret :: _ =>
      let w := w.log (Actor.caller tid)
        [Event.sysWrite w.sPowerStatefd (pwr_state_mem.toList.take (strlen pwr_state_mem)) ret]
      if ret.ret < 0 then some (w.setPc tid (CallPc.done ret.ret))
      else if w.wait_for_earlysuspend then some (w.setPc tid CallPc.lock)
      else some (w.setPc tid (CallPc.done 0))
  | CallPc.lock =>
    (pthread_mutex_lock (Actor.caller tid) w).map (fun w => w.setPc tid CallPc.check)
  | CallPc.check =>
    if w.earlysuspend_state ≠ Phase.EARLYSUSPEND_MEM then some (pthread_cond_wait tid w)
    else some (w.setPc tid CallPc.unlock)
  | CallPc.waiting => none
  | CallPc.reacquire =>
    (pthread_mutex_lock (Actor.caller tid) w).map (fun w => w.setPc tid CallPc.check)
  | CallPc.unlock =>
    some ((pthread_mutex_unlock (Actor.caller tid) w).setPc tid CallPc.unlocked)
  | CallPc.unlocked => some (w.setPc tid (CallPc.done 0))
  | CallPc.done _ => none
  | CallPc.returned => none

/-- Lines 111-139, one step of call `tid` standing at `pc`; see
`autosuspend_earlysuspend_enable`. -/
def autosuspend_earlysuspend_disable (tid : Nat) (pc : CallPc) (outs : List SysRet)
    (w : World) : Option World :=
  match pc with
  | CallPc.start =>
    match TEMP_FAILURE_RETRY outs with
    | none => none
    | some (ret, writes) =>
      let w := w.log (Actor.caller tid)
        (writes.map
          (Event.sysWrite w.sPowerStatefd (pwr_state_on.toList.take (strlen pwr_state_on))))
      if ret.ret < 0 then some (w.setPc tid (CallPc.done ret.ret))
      else if w.wait_for_earlysuspend then some (w.setPc tid CallPc.lock)
      else some (w.setPc tid (CallPc.done 0))
  | CallPc.lock =>
    (pthread_mutex_lock (Actor.caller tid) w).map (fun w => w.setPc tid CallPc.check)
  | CallPc.check =>
    if w.earlysuspend_state ≠ Phase.EARLYSUSPEND_ON then some (pthread_cond_wait tid w)
    else some (w.setPc tid CallPc.unlock)
  | CallPc.waiting => none
  | CallPc.reacquire =>
    (pthread_mutex_lock (Actor.caller tid) w).map (fun w => w.setPc tid CallPc.check)
  | CallPc.unlock =>
    some ((pthread_mutex_unlock (Actor.caller tid) w).setPc tid CallPc.unlocked)
  | CallPc.unlocked => some (w.setPc tid (CallPc.done 0))
  | CallPc.done _ => none
  | CallPc.returned => none

/-- Lines 141-144, one step of call `tid` standing at `pc`. -/
def force_suspend (_timeout_ms : Int) (tid : Nat) (pc : CallPc) (w : World) : Option World :=
  match pc with
  | CallPc.start => some (w.setPc tid (CallPc.done 0))
  | _ => none

/-- Line 146, one step of call `tid` standing at `pc`. -/
def autosuspend_set_wakeup_callback (tid : Nat) (pc : CallPc) (w : World) : Option World :=
  match pc with
  | CallPc.start => some (w.setPc tid CallPc.returned)
  | _ => none

/-- Lines 59-80, one step of the watcher thread. `openOuts`, `readOuts` answer
the system calls of `wait_for_fb_sleep` / `wait_for_fb_wake`, `pick` is the
thread library's choice in `pthread_cond_signal`. -/
def earlysuspend_thread_func (openOuts readOuts : List SysRet) (pick : Nat)
    (w : World) : Option World :=
  match w.watcher with
  | WatcherPc.notStarted => none
  | WatcherPc.sleepRead =>
    match wait_for_fb_sleep openOuts readOuts with
    | none => none
    | some (err, evs) =>
      if err ≠ 0 then some { w.log Actor.watcher evs with watcher := WatcherPc.exited }
      else some { w.log Actor.watcher evs with watcher := WatcherPc.memLock }
  | WatcherPc.memLock =>
    (pthread_mutex_lock Actor.watcher w).map (fun w => { w with watcher := WatcherPc.memSet })
  | WatcherPc.memSet =>
    some { w.log Actor.watcher [Event.assign Phase.EARLYSUSPEND_MEM] with
            earlysuspend_state := Phase.EARLYSUSPEND_MEM, watcher := WatcherPc.memSignal }
  | WatcherPc.memSignal =>
    some { pthread_cond_signal Actor.watcher pick w with watcher := WatcherPc.memUnlock }
  | WatcherPc.memUnlock =>
    some { pthread_mutex_unlock Actor.watcher w with watcher := WatcherPc.wakeRead }
  | WatcherPc.wakeRead =>
    match wait_for_fb_wake openOuts readOuts with
    | none => none
    | some (err, evs) =>
      if err ≠ 0 then some { w.log Actor.watcher evs with watcher := WatcherPc.exited }
      else some { w.log Actor.watcher evs with watcher := WatcherPc.onLock }
  | WatcherPc.onLock =>
    (pthread_mutex_lock Actor.watcher w).map (fun w => { w with watcher := WatcherPc.onSet })
  | WatcherPc.onSet =>
    some { w.log Actor.watcher [Event.assign Phase.EARLYSUSPEND_ON] with
            earlysuspend_state := Phase.EARLYSUSPEND_ON, watcher := WatcherPc.onSignal }
  | WatcherPc.onSignal =>
    some { pthread_cond_signal Actor.watcher pick w with watcher := WatcherPc.onUnlock }
  | WatcherPc.onUnlock =>
    some { pthread_mutex_unlock Actor.watcher w with watcher := WatcherPc.sleepRead }
  | WatcherPc.exited => none

/-- What happens next: a facade call moves, the watcher moves, or a thread
blocked in `pthread_cond_wait` wakes up without a signal (POSIX allows it). -/
inductive Action where
  | caller (tid : Nat) (outs : List SysRet)
  | watcher (openOuts readOuts : List SysRet) (pick : Nat)
  | spurious (tid : Nat)
  deriving DecidableEq, Repr

/-- One step of the system; `none` when the action is not possible. -/
def step (w : World) : Action → Option World
  | Action.caller tid outs =>
    match w.calls[tid]? with
    | none => none
    | some c =>
      match c.op with
      | Op.autosuspend_earlysuspend_enable => autosuspend_earlysuspend_enable tid c.pc outs w
      | Op.autosuspend_earlysuspend_disable => autosuspend_earlysuspend_disable tid c.pc outs w
      | Op.force_suspend timeout_ms => force_suspend timeout_ms tid c.pc w
      | Op.autosuspend_set_wakeup_callback => autosuspend_set_wakeup_callback tid c.pc w
  | Action.watcher openOuts readOuts pick => earlysuspend_thread_func openOuts readOuts pick w
  | Action.spurious tid =>
    match w.calls[tid]? with
    | none => none
    | some c => if c.pc = CallPc.waiting then some (w.setPc tid CallPc.reacquire) else none

/-- Run a schedule; `none` when one of its actions is not possible. -/
def run : World → List Action → Option World
  | w, [] => some w
  | w, a :: as =>
    match step w a with
    | none => none
    | some w' => run w' as

/-- The system when `autosuspend_earlysuspend_init` has returned `r` and the
host controller goes on to make the facade calls `ops`. -/
def boot (r : InitResult) (ops : List Op) : World :=
  { toGlobals := r.s.g,
    mutex := none,
    watcher := if r.s.watcherStarted then WatcherPc.sleepRead else WatcherPc.notStarted,
    calls := ops.map (fun op => { op := op, pc := CallPc.start }),
    trace := r.s.trace }

/-- The phase a call waits for, if it is one that waits. -/
def Op.target : Op → Option Phase
  | Op.autosuspend_earlysuspend_enable => some Phase.EARLYSUSPEND_MEM
  | Op.autosuspend_earlysuspend_disable => some Phase.EARLYSUSPEND_ON
  | _ => none

/-- The position of call `tid`, if there is such a call. -/
def World.pcOf (w : World) (tid : Nat) : Option CallPc :=
  (w.calls[tid]?).map (fun c => c.pc)

/-- Positions at which a call owns the mutex. -/
def CallPc.holdsMutex : CallPc → Bool
  | CallPc.check => true
  | CallPc.unlock => true
  | _ => false

/-- Positions at which a call has made its write successfully and has not
left the loop of lines 97-99 / 127-129. -/
def CallPc.pending : CallPc → Bool
  | CallPc.lock => true
  | CallPc.check => true
  | CallPc.waiting => true
  | CallPc.reacquire => true
  | _ => false

/-- Positions at which the watcher owns the mutex. -/
def WatcherPc.holdsMutex : WatcherPc → Bool
  | WatcherPc.memSet => true
  | WatcherPc.memSignal => true
  | WatcherPc.memUnlock => true
  | WatcherPc.onSet => true
  | WatcherPc.onSignal => true
  | WatcherPc.onUnlock => true
  | _ => false

/-- Mutual exclusion: whoever stands inside a critical section owns the
mutex, and a call that has left its loop saw the phase it waits for. -/
structure Inv (w : World) : Prop where
  callerOwns : ∀ (tid : Nat) (c : Call), w.calls[tid]? = some c → c.pc.holdsMutex = true →
    w.mutex = some (Actor.caller tid)
  watcherOwns : w.watcher.holdsMutex = true → w.mutex = some Actor.watcher
  exitOk : ∀ (tid : Nat) (c : Call), w.calls[tid]? = some c → c.pc = CallPc.unlock →
    c.op.target = some w.earlysuspend_state

/-- The moves a facade call can make, as a relation: a summary of
`autosuspend_earlysuspend_enable`, `autosuspend_earlysuspend_disable`,
`force_suspend` and `autosuspend_set_wakeup_callback` used to prove invariants. -/
inductive CallerMove (w : World) (tid : Nat) (c : Call) : World → Prop
  | stub (pc' : CallPc) : c.op.target = none → c.pc = CallPc.start →
      (pc' = CallPc.done 0 ∨ pc' = CallPc.returned) →
      CallerMove w tid c (w.setPc tid pc')
  | writeFail (evs : List Event) (r : Int) : c.pc = CallPc.start → r < 0 →
      (∀ e ∈ evs, ∃ fd b o, e = Event.sysWrite fd b o) →
      CallerMove w tid c ((w.log (Actor.caller tid) evs).setPc tid (CallPc.done r))
  | writeSync (evs : List Event) : c.pc = CallPc.start → w.wait_for_earlysuspend = true →
      (∀ e ∈ evs, ∃ fd b o, e = Event.sysWrite fd b o) →
      CallerMove w tid c ((w.log (Actor.caller tid) evs).setPc tid CallPc.lock)
  | writeNoSync (evs : List Event) : c.pc = CallPc.start → w.wait_for_earlysuspend = false →
      (∀ e ∈ evs, ∃ fd b o, e = Event.sysWrite fd b o) →
      CallerMove w tid c ((w.log (Actor.caller tid) evs).setPc tid (CallPc.done 0))
  | acquire : (c.pc = CallPc.lock ∨ c.pc = CallPc.reacquire) → w.mutex = none →
      CallerMove w tid c
        (({ w with mutex := some (Actor.caller tid) }.log (Actor.caller tid)
          [Event.lock]).setPc tid CallPc.check)
  | block (t : Phase) : c.op.target = some t → c.pc = CallPc.check →
      w.earlysuspend_state ≠ t → CallerMove w tid c (pthread_cond_wait tid w)
  | leave (t : Phase) : c.op.target = some t → c.pc = CallPc.check →
      w.earlysuspend_state = t → CallerMove w tid c (w.setPc tid CallPc.unlock)
  | release : c.pc = CallPc.unlock →
      CallerMove w tid c
        ((pthread_mutex_unlock (Actor.caller tid) w).setPc tid CallPc.unlocked)
  | finish : c.pc = CallPc.unlocked → CallerMove w tid c (w.setPc tid (CallPc.done 0))

/-- Run a schedule, requiring `p` of every world passed through, the first and
the last included; `none` when an action is not possible or `p` fails. -/
def runWhile (p : World → Bool) : World → List Action → Option World
  | w, [] => if p w then some w else none
  | w, a :: as =>
    if p w then
      match step w a with
      | none => none
      | some w' => runWhile p w' as
    else none

/-- Positions a call can be at once its write has succeeded. -/
def CallPc.afterWrite : CallPc → Bool
  | CallPc.lock => true
  | CallPc.check => true
  | CallPc.waiting => true
  | CallPc.reacquire => true
  | CallPc.unlock => true
  | CallPc.unlocked => true
  | CallPc.done ret => decide (ret = 0)
  | _ => false

/-- Positions other than those inside `pthread_cond_wait`. -/
def CallPc.outsideWait : CallPc → Bool
  | CallPc.waiting => false
  | CallPc.reacquire => false
  | _ => true

/-- Positions of a call that has not returned 0: not yet written, in the
loop, or returned the negative result of a failed write. -/
def CallPc.notReturnedZero : CallPc → Bool
  | CallPc.start => true
  | CallPc.lock => true
  | CallPc.check => true
  | CallPc.waiting => true
  | CallPc.reacquire => true
  | CallPc.done ret => decide (ret < 0)
  | _ => false

/-! ## The history of the phase -/

/-- What matters to the phase in a trace: the outcome of a notification read of
the watcher, and an assignment to `earlysuspend_state` by anybody. -/
inductive Obs where
  | readOk (path : Path)
  | readFail (path : Path)
  | assign (a : Actor) (p : Phase)
  deriving DecidableEq, Repr

/-- Read one trace entry. An interrupted `read` of the watcher is retried by
`TEMP_FAILURE_RETRY` and is not an outcome. -/
def observe : Actor × Event → Option Obs
  | (Actor.watcher, Event.sysRead path _ r) =>
    if r.ret = -1 ∧ r.errno = EINTR then none
    else if r.ret < 0 then some (Obs.readFail path) else some (Obs.readOk path)
  | (a, Event.assign p) => some (Obs.assign a p)
  | _ => none

/-- The observations of a trace, oldest first. -/
def history (tr : List (Actor × Event)) : List Obs := tr.filterMap observe

/-- Entry `i` of the history of a watcher that never fails: sleep read, `MEM`
assigned by the watcher, wake read, `ON` assigned by the watcher, and again. -/
def idealObs (i : Nat) : Obs :=
  match i % 4 with
  | 0 => Obs.readOk Path.EARLYSUSPEND_WAIT_FOR_FB_SLEEP
  | 1 => Obs.assign Actor.watcher Phase.EARLYSUSPEND_MEM
  | 2 => Obs.readOk Path.EARLYSUSPEND_WAIT_FOR_FB_WAKE
  | _ => Obs.assign Actor.watcher Phase.EARLYSUSPEND_ON

/-- The first `n` entries of that history. -/
def ideal : Nat → List Obs
  | 0 => []
  | n + 1 => ideal n ++ [idealObs n]

/-- The value `earlysuspend_state` has after a history: the last value
assigned, `EARLYSUSPEND_ON` (line 31) when none was. -/
def phaseAfter (h : List Obs) : Phase :=
  h.foldl (fun p o => match o with
    | Obs.assign _ q => q
    | _ => p) Phase.EARLYSUSPEND_ON

/-- How far in its cycle of four observations the running watcher is. -/
def WatcherPc.stage : WatcherPc → Option Nat
  | WatcherPc.sleepRead => some 0
  | WatcherPc.memLock => some 1
  | WatcherPc.memSet => some 1
  | WatcherPc.memSignal => some 2
  | WatcherPc.memUnlock => some 2
  | WatcherPc.wakeRead => some 2
  | WatcherPc.onLock => some 3
  | WatcherPc.onSet => some 3
  | WatcherPc.onSignal => some 0
  | WatcherPc.onUnlock => some 0
  | _ => none

/-- The history fits the position of the watcher, and the phase is the one the
history leaves. -/
structure HistInv (w : World) : Prop where
  phase : w.earlysuspend_state = phaseAfter (history w.trace)
  idle : w.watcher = WatcherPc.notStarted → history w.trace = []
  running : ∀ k : Nat, w.watcher.stage = some k → ∃ n, n % 4 = k ∧ history w.trace = ideal n
  stopped : w.watcher = WatcherPc.exited →
    ∃ n, (n % 4 = 0 ∧
        history w.trace = ideal n ++ [Obs.readFail Path.EARLYSUSPEND_WAIT_FOR_FB_SLEEP])
      ∨ (n % 4 = 2 ∧
        history w.trace = ideal n ++ [Obs.readFail Path.EARLYSUSPEND_WAIT_FOR_FB_WAKE])

/-- Events that are a `read`. -/
def Event.isRead : Event → Bool
  | Event.sysRead _ _ _ => true
  | _ => false

/-- Events that are a `pthread_create`. -/
def Event.isThreadCreate : Event → Bool
  | Event.threadCreate _ => true
  | _ => false

/-- When the watcher stands at a `pthread_cond_signal` or at the unlock after
it, the phase is the one it has just assigned. -/
structure SigInv (w : World) : Prop where
  atMem : w.watcher = WatcherPc.memSignal ∨ w.watcher = WatcherPc.memUnlock →
    w.earlysuspend_state = Phase.EARLYSUSPEND_MEM
  atOn : w.watcher = WatcherPc.onSignal ∨ w.watcher = WatcherPc.onUnlock →
    w.earlysuspend_state = Phase.EARLYSUSPEND_ON

/-- The request a call makes on entry, read off lines 88 and 118: the bytes
written, the value assigned to `ret` when the attempts of the write have the
outcomes `outs`, and the attempts made. Line 88 makes one attempt; line 118
repeats the attempt under `TEMP_FAILURE_RETRY`. -/
def Op.request : Op → List SysRet → Option (List Char × SysRet × List SysRet)
  | Op.autosuspend_earlysuspend_enable, ret :: _ => some (['m', 'e', 'm'], ret, [ret])
  | Op.autosuspend_earlysuspend_disable, outs =>
    match TEMP_FAILURE_RETRY outs with
    | none => none
    | some (ret, writes) => some (['o', 'n'], ret, writes)
  | _, _ => none

/-- Where a call stands after a request that returned `ret`. -/
def afterRequest (ret : Int) (sync : Bool) : CallPc :=
  if ret < 0 then CallPc.done ret else if sync then CallPc.lock else CallPc.done 0

/-! ## Concrete environments and schedules -/

/-- A write that succeeds. -/
def wrote : SysRet := { ret := 3, errno := 0 }

/-- A system call interrupted by a signal. -/
def interrupted : SysRet := { ret := -1, errno := EINTR }

/-- A system call that fails with `EIO`. -/
def failed : SysRet := { ret := -1, errno := 5 }

/-- Both notification files exist and the watcher thread is created; the first
`open` of the control file is interrupted once. -/
def envSync : InitEnv :=
  { openState := [interrupted, { ret := 3, errno := 0 }],
    writeOn := [{ ret := 2, errno := 0 }],
    accessSleep := { ret := 0, errno := 0 },
    accessWake := { ret := 0, errno := 0 },
    openWake := [{ ret := 4, errno := 0 }],
    readWake := [{ ret := 1, errno := 0 }],
    threadCreate := 0 }

/-- The wake notification file does not exist. -/
def envNoWake : InitEnv :=
  { envSync with accessWake := { ret := -1, errno := 2 } }

/-- The control file cannot be opened. -/
def envNoOpen : InitEnv :=
  { envSync with openState := [{ ret := -1, errno := 2 }] }

/-- The baseline write fails. -/
def envNoWrite : InitEnv :=
  { envSync with openState := [{ ret := 3, errno := 0 }], writeOn := [failed] }

/-- The state `autosuspend_earlysuspend_init` leaves in `envSync`. -/
def initSync : InitResult :=
  (autosuspend_earlysuspend_init envSync InitState.initial).getD
    { ops := none, s := InitState.initial }

/-- The state `autosuspend_earlysuspend_init` leaves in `envNoWake`. -/
def initNoWake : InitResult :=
  (autosuspend_earlysuspend_init envNoWake InitState.initial).getD
    { ops := none, s := InitState.initial }

/-- One enable call: it writes, takes the mutex, finds the phase `ON` and
blocks on the condition. -/
def schedEnableBlocks : List Action :=
  [Action.caller 0 [wrote], Action.caller 0 [], Action.caller 0 []]

/-- The world after `schedEnableBlocks`. -/
def worldEnableBlocked : World :=
  (run (boot initSync [Op.autosuspend_earlysuspend_enable]) schedEnableBlocks).getD
    (boot initSync [])

/-- The watcher reads the sleep notification and goes through lines 66-69. -/
def schedWatcherSleep : List Action :=
  [Action.watcher [{ ret := 5, errno := 0 }] [{ ret := 1, errno := 0 }] 0,
   Action.watcher [] [] 0, Action.watcher [] [] 0, Action.watcher [] [] 0,
   Action.watcher [] [] 0]

/-- A first enable call runs to completion: it blocks, the watcher reports the
sleep, the call is woken, sees `MEM` and returns. -/
def schedEnableCompletes : List Action :=
  schedEnableBlocks ++ schedWatcherSleep
    ++ [Action.caller 0 [], Action.caller 0 [], Action.caller 0 [], Action.caller 0 []]

/-- The world after `schedEnableCompletes`, a second enable call not yet entered. -/
def worldEnabled : World :=
  (run (boot initSync [Op.autosuspend_earlysuspend_enable, Op.autosuspend_earlysuspend_enable])
    schedEnableCompletes).getD (boot initSync [])

/-- Two enable calls both blocked on the condition, the watcher at the
`pthread_cond_signal` of line 68. -/
def schedTwoBlocked : List Action :=
  [Action.caller 0 [wrote], Action.caller 1 [wrote],
   Action.caller 0 [], Action.caller 0 [], Action.caller 1 [], Action.caller 1 [],
   Action.watcher [{ ret := 5, errno := 0 }] [{ ret := 1, errno := 0 }] 0,
   Action.watcher [] [] 0, Action.watcher [] [] 0]

/-- The world after `schedTwoBlocked`. -/
def worldTwoBlocked : World :=
  (run (boot initSync [Op.autosuspend_earlysuspend_enable, Op.autosuspend_earlysuspend_enable])
    schedTwoBlocked).getD (boot initSync [])

/-- An enable call and a disable call, each with a write that is interrupted
once and then succeeds. -/
def schedInterrupted : List Action :=
  [Action.caller 0 [interrupted, wrote], Action.caller 1 [interrupted, wrote]]

/-- The world after `schedEnableCompletes` when the host goes on to call
disable: the phase is `MEM`, the watcher is in `wait_for_fb_wake`. -/
def worldBeforeDisable : World :=
  (run (boot initSync [Op.autosuspend_earlysuspend_enable, Op.autosuspend_earlysuspend_disable])
    schedEnableCompletes).getD (boot initSync [])

/-- The signal of line 68 wakes call 0; the watcher unlocks; call 0 takes the
mutex, sees `MEM`, unlocks and returns. -/
def schedAfterSignal : List Action :=
  [Action.watcher [] [] 0, Action.watcher [] [] 0,
   Action.caller 0 [], Action.caller 0 [], Action.caller 0 [], Action.caller 0 []]

/-- An enable call blocks, is woken after the watcher has assigned `MEM`, leaves
its loop and unlocks; before it comes to its `return 0` the watcher reads the
wake notification, takes the mutex and assigns `ON`. -/
def schedReturnRace : List Action :=
  schedEnableBlocks ++ schedWatcherSleep
    ++ [Action.caller 0 [], Action.caller 0 [], Action.caller 0 [],
        Action.watcher [{ ret := 6, errno := 0 }] [{ ret := 1, errno := 0 }] 0,
        Action.watcher [] [] 0, Action.watcher [] [] 0]

/-- The world after `schedReturnRace`. -/
def worldReturnRace : World :=
  (run (boot initSync [Op.autosuspend_earlysuspend_enable]) schedReturnRace).getD
    (boot initSync [])

/-! ## Lemmas -/

theorem TEMP_FAILURE_RETRY_final {outs : List SysRet} {r : SysRet} {att : List SysRet}
    (h : TEMP_FAILURE_RETRY outs = some (r, att)) : ¬ (r.ret = -1 ∧ r.errno = EINTR) := by
  induction outs generalizing att with
  | nil => simp [TEMP_FAILURE_RETRY] at h
  | cons x rest ih =>
    unfold TEMP_FAILURE_RETRY at h
    split at h
    · split at h
      · simp at h
      · rename_i final attempts heq
        simp only [Option.some.injEq, Prod.mk.injEq] at h
        obtain ⟨h1, _⟩ := h
        subst h1
        exact ih heq
    · simp only [Option.some.injEq, Prod.mk.injEq] at h
      obtain ⟨h1, _⟩ := h
      subst h1
      assumption

theorem getElem?_setPcAt (l : List Call) (i j : Nat) (pc : CallPc) :
    (setPcAt l i pc)[j]? =
      if j = i then (l[j]?).map (fun c => { c with pc := pc }) else l[j]? := by
  induction l generalizing i j with
  | nil => simp [setPcAt]
  | cons c cs ih =>
    cases i <;> cases j <;> simp [setPcAt, ih]

theorem TEMP_FAILURE_RETRY_attempts {outs : List SysRet} {r : SysRet} {att : List SysRet}
    (h : TEMP_FAILURE_RETRY outs = some (r, att)) :
    ∃ k, att = List.replicate k ⟨-1, EINTR⟩ ++ [r] ∧ att = outs.take (k + 1) := by
  induction outs generalizing att with
  | nil => simp [TEMP_FAILURE_RETRY] at h
  | cons x rest ih =>
    unfold TEMP_FAILURE_RETRY at h
    split at h
    · rename_i hx
      split at h
      · simp at h
      · rename_i final attempts heq
        simp only [Option.some.injEq, Prod.mk.injEq] at h
        obtain ⟨h1, h2⟩ := h
        subst h1 h2
        obtain ⟨k, hk, hk2⟩ := ih heq
        refine ⟨k + 1, ?_, ?_⟩
        · rw [hk]
          have : x = ⟨-1, EINTR⟩ := by
            cases x
            simp at hx
            simp [hx]
          simp [List.replicate_succ, this]
        · simp [← hk2]
    · simp only [Option.some.injEq, Prod.mk.injEq] at h
      obtain ⟨h1, h2⟩ := h
      subst h1 h2
      exact ⟨0, by simp, by simp⟩

theorem step_caller_move {w w' : World} {tid : Nat} {outs : List SysRet}
    (h : step w (Action.caller tid outs) = some w') :
    ∃ c, w.calls[tid]? = some c ∧ CallerMove w tid c w' := by
  unfold step at h
  cases hc : w.calls[tid]? with
  | none => simp [hc] at h
  | some c =>
    refine ⟨c, rfl, ?_⟩
    simp only [hc] at h
    obtain ⟨op, pc⟩ := c
    cases op with
    | force_suspend t =>
      cases pc <;> simp [force_suspend] at h
      subst h
      exact CallerMove.stub _ rfl rfl (Or.inl rfl)
    | autosuspend_set_wakeup_callback =>
      cases pc <;> simp [autosuspend_set_wakeup_callback] at h
      subst h
      exact CallerMove.stub _ rfl rfl (Or.inr rfl)
    | autosuspend_earlysuspend_enable =>
      cases pc <;> simp only [autosuspend_earlysuspend_enable] at h
      · cases outs with
        | nil => simp at h
        | cons ret rest =>
          simp only at h
          split at h
          · simp only [Option.some.injEq] at h
            subst h
            exact CallerMove.writeFail _ _ rfl (by assumption) (by simp)
          · split at h
            · simp only [Option.some.injEq] at h
              subst h
              rename_i hw
              exact CallerMove.writeSync _ rfl (by simpa [World.log] using hw) (by simp)
            · simp only [Option.some.injEq] at h
              subst h
              rename_i hw
              exact CallerMove.writeNoSync _ rfl (by simpa [World.log] using hw) (by simp)
      · simp only [pthread_mutex_lock] at h
        split at h
        · simp only [Option.map_some', Option.some.injEq] at h
          subst h
          exact CallerMove.acquire (Or.inl rfl) (by assumption)
        · simp at h
      · split at h
        · simp only [Option.some.injEq] at h
          subst h
          exact CallerMove.block Phase.EARLYSUSPEND_MEM rfl rfl (by assumption)
        · simp only [Option.some.injEq] at h
          subst h
          rename_i hp
          exact CallerMove.leave Phase.EARLYSUSPEND_MEM rfl rfl (by simpa using hp)
      · simp at h
      · simp only [pthread_mutex_lock] at h
        split at h
        · simp only [Option.map_some', Option.some.injEq] at h
          subst h
          exact CallerMove.acquire (Or.inr rfl) (by assumption)
        · simp at h
      · simp only [Option.some.injEq] at h
        subst h
        exact CallerMove.release rfl
      · simp only [Option.some.injEq] at h
        subst h
        exact CallerMove.finish rfl
      · simp at h
      · simp at h
    | autosuspend_earlysuspend_disable =>
      cases pc <;> simp only [autosuspend_earlysuspend_disable] at h
      · cases hr : TEMP_FAILURE_RETRY outs with
        | none => simp [hr] at h
        | some x =>
          obtain ⟨ret, writes⟩ := x
          simp only [hr] at h
          split at h
          · simp only [Option.some.injEq] at h
            subst h
            exact CallerMove.writeFail _ _ rfl (by assumption) (by simp)
          · split at h
            · simp only [Option.some.injEq] at h
              subst h
              rename_i hw
              exact CallerMove.writeSync _ rfl (by simpa [World.log] using hw) (by simp)
            · simp only [Option.some.injEq] at h
              subst h
              rename_i hw
              exact CallerMove.writeNoSync _ rfl (by simpa [World.log] using hw) (by simp)
      · simp only [pthread_mutex_lock] at h
        split at h
        · simp only [Option.map_some', Option.some.injEq] at h
          subst h
          exact CallerMove.acquire (Or.inl rfl) (by assumption)
        · simp at h
      · split at h
        · simp only [Option.some.injEq] at h
          subst h
          exact CallerMove.block Phase.EARLYSUSPEND_ON rfl rfl (by assumption)
        · simp only [Option.some.injEq] at h
          subst h
          rename_i hp
          exact CallerMove.leave Phase.EARLYSUSPEND_ON rfl rfl (by simpa using hp)
      · simp at h
      · simp only [pthread_mutex_lock] at h
        split at h
        · simp only [Option.map_some', Option.some.injEq] at h
          subst h
          exact CallerMove.acquire (Or.inr rfl) (by assumption)
        · simp at h
      · simp only [Option.some.injEq] at h
        subst h
        exact CallerMove.release rfl
      · simp only [Option.some.injEq] at h
        subst h
        exact CallerMove.finish rfl
      · simp at h
      · simp at h

theorem calls_setPcAt {l : List Call} {tid tid' : Nat} {pc : CallPc} {c' : Call}
    (h : (setPcAt l tid pc)[tid']? = some c') :
    (tid' = tid ∧ ∃ c, l[tid]? = some c ∧ c' = { c with pc := pc })
      ∨ (tid' ≠ tid ∧ l[tid']? = some c') := by
  rw [getElem?_setPcAt] at h
  by_cases ht : tid' = tid
  · subst ht
    simp only [if_true] at h
    cases hl : l[tid']? with
    | none => simp [hl] at h
    | some c =>
      simp only [hl, Option.map_some', Option.some.injEq] at h
      exact Or.inl ⟨rfl, c, rfl, h.symm⟩
  · simp only [ht, if_false] at h
    exact Or.inr ⟨ht, h⟩

theorem mem_waitersFrom {l : List Call} {k tid : Nat} (h : tid ∈ waitersFrom k l) :
    ∃ c, k ≤ tid ∧ l[tid - k]? = some c ∧ c.pc = CallPc.waiting := by
  induction l generalizing k with
  | nil => simp [waitersFrom] at h
  | cons c cs ih =>
    unfold waitersFrom at h
    split at h
    · rename_i hc
      rcases List.mem_cons.mp h with h | h
      · subst h
        exact ⟨c, Nat.le_refl _, by simp, hc⟩
      · obtain ⟨c', hk, hget, hpc⟩ := ih h
        refine ⟨c', by omega, ?_, hpc⟩
        have : tid - k = (tid - (k + 1)) + 1 := by omega
        rw [this]
        simpa using hget
    · obtain ⟨c', hk, hget, hpc⟩ := ih h
      refine ⟨c', by omega, ?_, hpc⟩
      have : tid - k = (tid - (k + 1)) + 1 := by omega
      rw [this]
      simpa using hget

theorem waitersFrom_mem {l : List Call} {k i : Nat} {c : Call}
    (hget : l[i]? = some c) (hpc : c.pc = CallPc.waiting) : i + k ∈ waitersFrom k l := by
  induction l generalizing k i with
  | nil => simp at hget
  | cons x xs ih =>
    cases i with
    | zero =>
      simp only [List.getElem?_cons_zero, Option.some.injEq] at hget
      subst hget
      simp [waitersFrom, hpc]
    | succ j =>
      simp only [List.getElem?_cons_succ] at hget
      have := ih (k := k + 1) hget
      have e : j + 1 + k = j + (k + 1) := by omega
      unfold waitersFrom
      split
      · exact List.mem_cons_of_mem _ (e ▸ this)
      · exact e ▸ this

/-- What `pthread_cond_signal` does: nothing when nobody waits, otherwise it
moves one waiting call to `CallPc.reacquire`. -/
theorem pthread_cond_signal_cases (a : Actor) (pick : Nat) (w : World) :
    (waitersFrom 0 w.calls = [] ∧
        pthread_cond_signal a pick w = w.log a [Event.condSignal none])
      ∨ (∃ tid c, w.calls[tid]? = some c ∧ c.pc = CallPc.waiting ∧
        pthread_cond_signal a pick w
          = (w.setPc tid CallPc.reacquire).log a [Event.condSignal (some tid)]) := by
  unfold pthread_cond_signal
  cases hws : waitersFrom 0 w.calls with
  | nil => left; simp
  | cons x xs =>
    right
    have hlt : pick % (x :: xs).length < (x :: xs).length :=
      Nat.mod_lt _ (by simp)
    obtain ⟨tid, htid⟩ : ∃ tid, (x :: xs)[pick % (x :: xs).length]? = some tid :=
      ⟨_, List.getElem?_eq_getElem hlt⟩
    have hmem : tid ∈ waitersFrom 0 w.calls := by
      rw [hws]
      exact List.getElem?_mem htid
    obtain ⟨c, _, hget, hpc⟩ := mem_waitersFrom hmem
    refine ⟨tid, c, by simpa using hget, hpc, ?_⟩
    simp only [htid]

theorem Inv.wake {w : World} {tid : Nat} {pc : CallPc} (hi : Inv w)
    (hpc : pc.holdsMutex = false) : Inv (w.setPc tid pc) := by
  constructor
  · intro tid' c' hget hh
    rcases calls_setPcAt hget with ⟨_, c, _, rfl⟩ | ⟨_, hget'⟩
    · simp [hpc] at hh
    · exact hi.callerOwns tid' c' hget' hh
  · exact hi.watcherOwns
  · intro tid' c' hget hu
    rcases calls_setPcAt hget with ⟨_, c, _, rfl⟩ | ⟨_, hget'⟩
    · simp only at hu
      subst hu
      simp [CallPc.holdsMutex] at hpc
    · exact hi.exitOk tid' c' hget' hu

theorem Inv.log {w : World} {a : Actor} {evs : List Event} (hi : Inv w) :
    Inv (w.log a evs) :=
  ⟨hi.callerOwns, hi.watcherOwns, hi.exitOk⟩

theorem CallerMove.inv {w w' : World} {tid : Nat} {c : Call}
    (hm : CallerMove w tid c w') (hc : w.calls[tid]? = some c) (hi : Inv w) : Inv w' := by
  cases hm with
  | stub pc' _ _ hpc => rcases hpc with rfl | rfl <;> exact hi.wake rfl
  | writeFail evs r _ _ _ => exact (hi.log).wake rfl
  | writeSync evs _ _ _ => exact (hi.log).wake rfl
  | writeNoSync evs _ _ _ => exact (hi.log).wake rfl
  | acquire hpc hfree =>
    constructor
    · intro tid' c' hget hh
      rcases calls_setPcAt hget with ⟨rfl, c, _, rfl⟩ | ⟨_, hget'⟩
      · rfl
      · have := hi.callerOwns tid' c' hget' hh
        rw [hfree] at this
        cases this
    · intro hh
      have := hi.watcherOwns hh
      rw [hfree] at this
      cases this
    · intro tid' c' hget hu
      rcases calls_setPcAt hget with ⟨rfl, c, _, rfl⟩ | ⟨_, hget'⟩
      · cases hu
      · have := hi.callerOwns tid' c' hget' (by rw [hu]; rfl)
        rw [hfree] at this
        cases this
  | block t ht hpc hne =>
    have hown := hi.callerOwns tid c hc (by rw [hpc]; rfl)
    constructor
    · intro tid' c' hget hh
      rcases calls_setPcAt hget with ⟨rfl, c, _, rfl⟩ | ⟨hne', hget'⟩
      · cases hh
      · have := hi.callerOwns tid' c' hget' hh
        rw [hown] at this
        simp at this
        exact absurd this.symm hne'
    · intro hh
      have := hi.watcherOwns hh
      rw [hown] at this
      cases this
    · intro tid' c' hget hu
      rcases calls_setPcAt hget with ⟨rfl, c, _, rfl⟩ | ⟨hne', hget'⟩
      · cases hu
      · exact hi.exitOk tid' c' hget' hu
  | leave t ht hpc hp =>
    have hown := hi.callerOwns tid c hc (by rw [hpc]; rfl)
    constructor
    · intro tid' c' hget hh
      rcases calls_setPcAt hget with ⟨rfl, c, _, rfl⟩ | ⟨hne', hget'⟩
      · exact hown
      · exact hi.callerOwns tid' c' hget' hh
    · exact hi.watcherOwns
    · intro tid' c' hget hu
      rcases calls_setPcAt hget with ⟨rfl, c0, hc0, rfl⟩ | ⟨hne', hget'⟩
      · rw [hc] at hc0
        cases hc0
        simpa [World.setPc, hp] using ht
      · exact hi.exitOk tid' c' hget' hu
  | release hpc =>
    have hown := hi.callerOwns tid c hc (by rw [hpc]; rfl)
    constructor
    · intro tid' c' hget hh
      rcases calls_setPcAt hget with ⟨rfl, c, _, rfl⟩ | ⟨hne', hget'⟩
      · cases hh
      · have := hi.callerOwns tid' c' hget' hh
        rw [hown] at this
        simp at this
        exact absurd this.symm hne'
    · intro hh
      have := hi.watcherOwns hh
      rw [hown] at this
      cases this
    · intro tid' c' hget hu
      rcases calls_setPcAt hget with ⟨rfl, c, _, rfl⟩ | ⟨hne', hget'⟩
      · cases hu
      · have := hi.callerOwns tid' c' hget' (by rw [hu]; rfl)
        rw [hown] at this
        simp at this
        exact absurd this.symm hne'
  | finish _ => exact @Inv.wake _ _ (CallPc.done 0) hi rfl

theorem Inv.signal {w : World} {pick : Nat} (hi : Inv w) :
    Inv (pthread_cond_signal Actor.watcher pick w) := by
  rcases pthread_cond_signal_cases Actor.watcher pick w with ⟨_, h⟩ | ⟨tid, c, _, _, h⟩
  · rw [h]
    exact hi.log
  · rw [h]
    exact (@Inv.wake _ _ CallPc.reacquire hi rfl).log

theorem Inv.watcherAcquire {w : World} {pc : WatcherPc} (hi : Inv w) (hfree : w.mutex = none) :
    Inv { ({ w with mutex := some Actor.watcher } : World).log Actor.watcher [Event.lock] with
          watcher := pc } := by
  constructor
  · intro tid c hget hh
    have := hi.callerOwns tid c hget hh
    rw [hfree] at this
    cases this
  · intro _
    rfl
  · intro tid c hget hu
    have := hi.callerOwns tid c hget (by rw [hu]; rfl)
    rw [hfree] at this
    cases this

theorem Inv.watcherRelease {w : World} {pc : WatcherPc} (hi : Inv w)
    (hown : w.mutex = some Actor.watcher) (hpc : pc.holdsMutex = false) :
    Inv { pthread_mutex_unlock Actor.watcher w with watcher := pc } := by
  constructor
  · intro tid c hget hh
    have := hi.callerOwns tid c hget hh
    rw [hown] at this
    cases this
  · intro hh
    simp [hpc] at hh
  · intro tid c hget hu
    have := hi.callerOwns tid c hget (by rw [hu]; rfl)
    rw [hown] at this
    cases this

theorem Inv.watcherAssign {w : World} {pc : WatcherPc} {p : Phase} {evs : List Event}
    (hi : Inv w) (hown : w.mutex = some Actor.watcher) :
    Inv { w.log Actor.watcher evs with earlysuspend_state := p, watcher := pc } := by
  constructor
  · intro tid c hget hh
    have := hi.callerOwns tid c hget hh
    rw [hown] at this
    cases this
  · intro _
    exact hown
  · intro tid c hget hu
    have := hi.callerOwns tid c hget (by rw [hu]; rfl)
    rw [hown] at this
    cases this

theorem Inv.watcherMove {w : World} {pc : WatcherPc} {evs : List Event}
    (hi : Inv w) (hpc : pc.holdsMutex = true → w.mutex = some Actor.watcher) :
    Inv { w.log Actor.watcher evs with watcher := pc } :=
  ⟨hi.callerOwns, hpc, hi.exitOk⟩

theorem watcher_step_inv {w w' : World} {openOuts readOuts : List SysRet} {pick : Nat}
    (h : earlysuspend_thread_func openOuts readOuts pick w = some w') (hi : Inv w) :
    Inv w' := by
  unfold earlysuspend_thread_func at h
  cases hw : w.watcher <;> simp only [hw] at h
  · simp at h
  · cases hr : wait_for_fb_sleep openOuts readOuts with
    | none => simp [hr] at h
    | some x =>
      obtain ⟨err, evs⟩ := x
      simp only [hr] at h
      split at h <;> (simp only [Option.some.injEq] at h; subst h)
      · exact hi.watcherMove (by intro hh; cases hh)
      · exact hi.watcherMove (by intro hh; cases hh)
  · simp only [pthread_mutex_lock] at h
    split at h
    · simp only [Option.map_some', Option.some.injEq] at h
      subst h
      exact hi.watcherAcquire (by assumption)
    · simp at h
  · simp only [Option.some.injEq] at h
    subst h
    exact hi.watcherAssign (hi.watcherOwns (by rw [hw]; rfl))
  · simp only [Option.some.injEq] at h
    subst h
    have hs : Inv (pthread_cond_signal Actor.watcher pick w) := hi.signal
    have hown := hi.watcherOwns (by rw [hw]; rfl)
    refine ⟨hs.callerOwns, ?_, hs.exitOk⟩
    intro _
    rcases pthread_cond_signal_cases Actor.watcher pick w with ⟨_, e⟩ | ⟨tid, c, _, _, e⟩ <;>
      (rw [e]; exact hown)
  · simp only [Option.some.injEq] at h
    subst h
    exact hi.watcherRelease (hi.watcherOwns (by rw [hw]; rfl)) rfl
  · cases hr : wait_for_fb_wake openOuts readOuts with
    | none => simp [hr] at h
    | some x =>
      obtain ⟨err, evs⟩ := x
      simp only [hr] at h
      split at h <;> (simp only [Option.some.injEq] at h; subst h)
      · exact hi.watcherMove (by intro hh; cases hh)
      · exact hi.watcherMove (by intro hh; cases hh)
  · simp only [pthread_mutex_lock] at h
    split at h
    · simp only [Option.map_some', Option.some.injEq] at h
      subst h
      exact hi.watcherAcquire (by assumption)
    · simp at h
  · simp only [Option.some.injEq] at h
    subst h
    exact hi.watcherAssign (hi.watcherOwns (by rw [hw]; rfl))
  · simp only [Option.some.injEq] at h
    subst h
    have hs : Inv (pthread_cond_signal Actor.watcher pick w) := hi.signal
    have hown := hi.watcherOwns (by rw [hw]; rfl)
    refine ⟨hs.callerOwns, ?_, hs.exitOk⟩
    intro _
    rcases pthread_cond_signal_cases Actor.watcher pick w with ⟨_, e⟩ | ⟨tid, c, _, _, e⟩ <;>
      (rw [e]; exact hown)
  · simp only [Option.some.injEq] at h
    subst h
    exact hi.watcherRelease (hi.watcherOwns (by rw [hw]; rfl)) rfl
  · simp at h

theorem step_inv {w w' : World} {a : Action} (h : step w a = some w') (hi : Inv w) :
    Inv w' := by
  cases a with
  | caller tid outs =>
    obtain ⟨c, hc, hm⟩ := step_caller_move h
    exact hm.inv hc hi
  | watcher openOuts readOuts pick => exact watcher_step_inv h hi
  | spurious tid =>
    unfold step at h
    cases hc : w.calls[tid]? with
    | none => simp [hc] at h
    | some c =>
      simp only [hc] at h
      split at h
      · simp only [Option.some.injEq] at h
        subst h
        exact @Inv.wake _ _ CallPc.reacquire hi rfl
      · simp at h

theorem run_inv {w w' : World} {as : List Action} (h : run w as = some w') (hi : Inv w) :
    Inv w' := by
  induction as generalizing w with
  | nil =>
    simp only [run, Option.some.injEq] at h
    exact h ▸ hi
  | cons a as ih =>
    unfold run at h
    cases hs : step w a with
    | none => simp [hs] at h
    | some v =>
      simp only [hs] at h
      exact ih h (step_inv hs hi)

theorem boot_inv (r : InitResult) (ops : List Op) : Inv (boot r ops) := by
  constructor
  · intro tid c hget hh
    simp only [boot, List.getElem?_map] at hget
    cases hop : ops[tid]? with
    | none => simp [hop] at hget
    | some op =>
      simp only [hop, Option.map_some', Option.some.injEq] at hget
      subst hget
      cases hh
  · intro hh
    simp only [boot] at hh
    split at hh <;> cases hh
  · intro tid c hget hu
    simp only [boot, List.getElem?_map] at hget
    cases hop : ops[tid]? with
    | none => simp [hop] at hget
    | some op =>
      simp only [hop, Option.map_some', Option.some.injEq] at hget
      subst hget
      cases hu

theorem setPcAt_get {l : List Call} {tid : Nat} {pc : CallPc} {c : Call}
    (h : l[tid]? = some c) : (setPcAt l tid pc)[tid]? = some { c with pc := pc } := by
  rw [getElem?_setPcAt]
  simp [h]

theorem setPcAt_get_ne {l : List Call} {tid tid' : Nat} {pc : CallPc} (h : tid' ≠ tid) :
    (setPcAt l tid pc)[tid']? = l[tid']? := by
  rw [getElem?_setPcAt]
  simp [h]

/-- A move of call `tid` leaves the globals and the watcher alone and changes
the position of call `tid` only. -/
theorem CallerMove.frame {w w' : World} {tid : Nat} {c : Call} (hm : CallerMove w tid c w') :
    w'.toGlobals = w.toGlobals ∧ w'.watcher = w.watcher ∧
      ∃ pc', w'.calls = setPcAt w.calls tid pc' := by
  cases hm <;> exact ⟨rfl, rfl, _, rfl⟩

/-- A step of the watcher changes no call, except that its signal may move one
waiting call to `CallPc.reacquire`; it leaves the flag and the descriptor alone. -/
theorem watcher_step_frame {w w' : World} {openOuts readOuts : List SysRet} {pick : Nat}
    (h : earlysuspend_thread_func openOuts readOuts pick w = some w') :
    w'.wait_for_earlysuspend = w.wait_for_earlysuspend ∧ w'.sPowerStatefd = w.sPowerStatefd ∧
      (w'.calls = w.calls ∨
        ∃ tid c, w.calls[tid]? = some c ∧ c.pc = CallPc.waiting ∧
          w'.calls = setPcAt w.calls tid CallPc.reacquire) := by
  unfold earlysuspend_thread_func at h
  cases hw : w.watcher <;> simp only [hw] at h
  · simp at h
  · cases hr : wait_for_fb_sleep openOuts readOuts with
    | none => simp [hr] at h
    | some x =>
      obtain ⟨err, evs⟩ := x
      simp only [hr] at h
      split at h <;> (simp only [Option.some.injEq] at h; subst h; exact ⟨rfl, rfl, Or.inl rfl⟩)
  · simp only [pthread_mutex_lock] at h
    split at h
    · simp only [Option.map_some', Option.some.injEq] at h
      subst h
      exact ⟨rfl, rfl, Or.inl rfl⟩
    · simp at h
  · simp only [Option.some.injEq] at h
    subst h
    exact ⟨rfl, rfl, Or.inl rfl⟩
  · simp only [Option.some.injEq] at h
    subst h
    rcases pthread_cond_signal_cases Actor.watcher pick w with ⟨_, e⟩ | ⟨tid, c, hc, hpc, e⟩
    · simp only [e]
      exact ⟨rfl, rfl, Or.inl rfl⟩
    · simp only [e]
      exact ⟨rfl, rfl, Or.inr ⟨tid, c, hc, hpc, rfl⟩⟩
  · simp only [Option.some.injEq] at h
    subst h
    exact ⟨rfl, rfl, Or.inl rfl⟩
  · cases hr : wait_for_fb_wake openOuts readOuts with
    | none => simp [hr] at h
    | some x =>
      obtain ⟨err, evs⟩ := x
      simp only [hr] at h
      split at h <;> (simp only [Option.some.injEq] at h; subst h; exact ⟨rfl, rfl, Or.inl rfl⟩)
  · simp only [pthread_mutex_lock] at h
    split at h
    · simp only [Option.map_some', Option.some.injEq] at h
      subst h
      exact ⟨rfl, rfl, Or.inl rfl⟩
    · simp at h
  · simp only [Option.some.injEq] at h
    subst h
    exact ⟨rfl, rfl, Or.inl rfl⟩
  · simp only [Option.some.injEq] at h
    subst h
    rcases pthread_cond_signal_cases Actor.watcher pick w with ⟨_, e⟩ | ⟨tid, c, hc, hpc, e⟩
    · simp only [e]
      exact ⟨rfl, rfl, Or.inl rfl⟩
    · simp only [e]
      exact ⟨rfl, rfl, Or.inr ⟨tid, c, hc, hpc, rfl⟩⟩
  · simp only [Option.some.injEq] at h
    subst h
    exact ⟨rfl, rfl, Or.inl rfl⟩
  · simp at h

/-- A step that is not a step of the watcher leaves the phase alone. -/
theorem spurious_step_frame {w w' : World} {tid : Nat}
    (h : step w (Action.spurious tid) = some w') :
    w'.toGlobals = w.toGlobals ∧ w'.watcher = w.watcher ∧ w'.mutex = w.mutex ∧
      w'.trace = w.trace ∧
      ∃ c, w.calls[tid]? = some c ∧ c.pc = CallPc.waiting ∧
        w'.calls = setPcAt w.calls tid CallPc.reacquire := by
  unfold step at h
  cases hc : w.calls[tid]? with
  | none => simp [hc] at h
  | some c =>
    simp only [hc] at h
    split at h
    · simp only [Option.some.injEq] at h
      subst h
      exact ⟨rfl, rfl, rfl, rfl, c, rfl, by assumption, rfl⟩
    · simp at h

/-- Every step keeps `wait_for_earlysuspend`, `sPowerStatefd`, the number of
calls and the operation of each call. -/
theorem step_frame {w w' : World} {a : Action} (h : step w a = some w') :
    w'.wait_for_earlysuspend = w.wait_for_earlysuspend ∧ w'.sPowerStatefd = w.sPowerStatefd ∧
      ∃ tid pc', w'.calls = setPcAt w.calls tid pc' := by
  cases a with
  | caller tid outs =>
    obtain ⟨c, _, hm⟩ := step_caller_move h
    obtain ⟨hg, _, pc', hcalls⟩ := hm.frame
    exact ⟨by rw [hg], by rw [hg], tid, pc', hcalls⟩
  | watcher openOuts readOuts pick =>
    obtain ⟨h1, h2, h3⟩ := watcher_step_frame h
    refine ⟨h1, h2, ?_⟩
    rcases h3 with h3 | ⟨tid, c, _, _, h3⟩
    · refine ⟨w.calls.length, CallPc.start, ?_⟩
      rw [h3]
      apply List.ext_getElem?
      intro i
      rw [getElem?_setPcAt]
      split
      · rename_i hi
        subst hi
        simp
      · rfl
    · exact ⟨tid, _, h3⟩
  | spurious tid =>
    obtain ⟨hg, _, _, _, c, _, _, hcalls⟩ := spurious_step_frame h
    exact ⟨by rw [hg], by rw [hg], tid, _, hcalls⟩

theorem run_frame {w w' : World} {as : List Action} (h : run w as = some w') :
    w'.wait_for_earlysuspend = w.wait_for_earlysuspend ∧ w'.sPowerStatefd = w.sPowerStatefd ∧
      ∀ tid : Nat, (w'.calls[tid]?).map (fun c : Call => c.op)
        = (w.calls[tid]?).map (fun c : Call => c.op) := by
  induction as generalizing w with
  | nil =>
    simp only [run, Option.some.injEq] at h
    subst h
    exact ⟨rfl, rfl, fun _ => rfl⟩
  | cons a as ih =>
    unfold run at h
    cases hs : step w a with
    | none => simp [hs] at h
    | some v =>
      simp only [hs] at h
      obtain ⟨h1, h2, h3⟩ := ih h
      obtain ⟨g1, g2, tid', pc', g3⟩ := step_frame hs
      refine ⟨h1.trans g1, h2.trans g2, fun tid => ?_⟩
      rw [h3 tid, g3, getElem?_setPcAt]
      split
      · cases w.calls[tid]? <;> rfl
      · rfl

/-- What one step does to one call: nothing, a move of its own, or a wake-up
from `pthread_cond_wait`. -/
theorem step_call_cases {w w' : World} {a : Action} {tid : Nat} {c : Call}
    (h : step w a = some w') (hc : w.calls[tid]? = some c) :
    w'.calls[tid]? = some c
      ∨ (∃ outs, a = Action.caller tid outs ∧ CallerMove w tid c w')
      ∨ (c.pc = CallPc.waiting ∧ w'.calls[tid]? = some { c with pc := CallPc.reacquire }) := by
  cases a with
  | caller tid' outs =>
    obtain ⟨c', hc', hm⟩ := step_caller_move h
    by_cases ht : tid = tid'
    · subst ht
      rw [hc] at hc'
      cases hc'
      exact Or.inr (Or.inl ⟨outs, rfl, hm⟩)
    · obtain ⟨_, _, pc', hcalls⟩ := hm.frame
      left
      rw [hcalls, setPcAt_get_ne ht, hc]
  | watcher openOuts readOuts pick =>
    obtain ⟨_, _, h3⟩ := watcher_step_frame h
    rcases h3 with h3 | ⟨tid', c', hc', hpc', h3⟩
    · left
      rw [h3, hc]
    · by_cases ht : tid = tid'
      · subst ht
        rw [hc] at hc'
        cases hc'
        right; right
        exact ⟨hpc', by rw [h3, setPcAt_get hc]⟩
      · left
        rw [h3, setPcAt_get_ne ht, hc]
  | spurious tid' =>
    obtain ⟨_, _, _, _, c', hc', hpc', h3⟩ := spurious_step_frame h
    by_cases ht : tid = tid'
    · subst ht
      rw [hc] at hc'
      cases hc'
      right; right
      exact ⟨hpc', by rw [h3, setPcAt_get hc]⟩
    · left
      rw [h3, setPcAt_get_ne ht, hc]

/-- While the phase differs from its target, a call that is in the loop stays
in the loop: its only moves are to take the mutex, to find the phase wrong and
block, and to be woken. -/
theorem step_pending {w w' : World} {a : Action} {tid : Nat} {c : Call} {t : Phase}
    (h : step w a = some w') (hc : w.calls[tid]? = some c) (ht : c.op.target = some t)
    (hp : c.pc.pending = true) (hne : w.earlysuspend_state ≠ t) :
    ∃ c', w'.calls[tid]? = some c' ∧ c'.op = c.op ∧ c'.pc.pending = true := by
  rcases step_call_cases h hc with h1 | ⟨outs, _, hm⟩ | ⟨_, h1⟩
  · exact ⟨c, h1, rfl, hp⟩
  · cases hm with
    | stub pc' _ hs _ => rw [hs] at hp; cases hp
    | writeFail evs r hs _ _ => rw [hs] at hp; cases hp
    | writeSync evs hs _ _ => rw [hs] at hp; cases hp
    | writeNoSync evs hs _ _ => rw [hs] at hp; cases hp
    | acquire _ _ =>
      exact ⟨{ c with pc := CallPc.check }, by simp [World.setPc, World.log, setPcAt_get hc],
        rfl, rfl⟩
    | block t' _ _ _ =>
      exact ⟨{ c with pc := CallPc.waiting },
        by simp [pthread_cond_wait, World.setPc, World.log, setPcAt_get hc], rfl, rfl⟩
    | leave t' ht' _ hp' =>
      rw [ht] at ht'
      cases ht'
      exact absurd hp' hne
    | release hs => rw [hs] at hp; cases hp
    | finish hs => rw [hs] at hp; cases hp
  · exact ⟨_, h1, rfl, rfl⟩

theorem runWhile_pending {w w' : World} {bs : List Action} {tid : Nat} {c : Call} {t : Phase}
    (h : runWhile (fun v => decide (v.earlysuspend_state ≠ t)) w bs = some w')
    (hc : w.calls[tid]? = some c) (ht : c.op.target = some t) (hp : c.pc.pending = true) :
    ∃ c', w'.calls[tid]? = some c' ∧ c'.op = c.op ∧ c'.pc.pending = true := by
  induction bs generalizing w c with
  | nil =>
    unfold runWhile at h
    split at h
    · simp only [Option.some.injEq] at h
      subst h
      exact ⟨c, hc, rfl, hp⟩
    · simp at h
  | cons b bs ih =>
    unfold runWhile at h
    split at h
    · rename_i hne
      cases hs : step w b with
      | none => simp [hs] at h
      | some v =>
        simp only [hs] at h
        obtain ⟨c1, hc1, hop1, hp1⟩ := step_pending hs hc ht hp (by simpa using hne)
        obtain ⟨c2, hc2, hop2, hp2⟩ := ih h hc1 (by rw [hop1]; exact ht) hp1
        exact ⟨c2, hc2, by rw [hop2, hop1], hp2⟩
    · simp at h

/-- A step that takes an enable or disable call past its
`pthread_mutex_unlock` is that unlock, made while the phase is the one the call
waits for. -/
theorem step_unlocks {w w' : World} {a : Action} {tid : Nat} {c : Call} {t : Phase}
    (hi : Inv w) (h : step w a = some w') (hc : w.calls[tid]? = some c)
    (ht : c.op.target = some t)
    (hnd : c.pc ≠ CallPc.unlocked) (hd : w'.pcOf tid = some CallPc.unlocked) :
    w.earlysuspend_state = t ∧ w'.earlysuspend_state = t ∧ c.pc = CallPc.unlock := by
  rcases step_call_cases h hc with h1 | ⟨outs, _, hm⟩ | ⟨_, h1⟩
  · simp [World.pcOf, h1] at hd
    exact absurd hd hnd
  · cases hm with
    | stub pc' hs _ _ => rw [ht] at hs; cases hs
    | writeFail evs r _ hr _ =>
      simp [World.pcOf, World.setPc, World.log, setPcAt_get hc] at hd
    | writeSync evs _ _ _ => simp [World.pcOf, World.setPc, World.log, setPcAt_get hc] at hd
    | writeNoSync evs _ hf _ =>
      simp [World.pcOf, World.setPc, World.log, setPcAt_get hc] at hd
    | acquire _ _ => simp [World.pcOf, World.setPc, World.log, setPcAt_get hc] at hd
    | block t' _ _ _ =>
      simp [World.pcOf, pthread_cond_wait, World.setPc, World.log, setPcAt_get hc] at hd
    | leave t' _ _ _ => simp [World.pcOf, World.setPc, World.log, setPcAt_get hc] at hd
    | release hs =>
      have := hi.exitOk tid c hc hs
      rw [ht] at this
      cases this
      exact ⟨rfl, rfl, hs⟩
    | finish _ => simp [World.pcOf, World.setPc, World.log, setPcAt_get hc] at hd
  · simp [World.pcOf, h1] at hd

/-- With synchronized waiting on, a step that makes an enable or disable call
return 0 is its `return 0`, taken after its `pthread_mutex_unlock`. -/
theorem step_return_zero {w w' : World} {a : Action} {tid : Nat} {c : Call} {t : Phase}
    (hsync : w.wait_for_earlysuspend = true)
    (h : step w a = some w') (hc : w.calls[tid]? = some c) (ht : c.op.target = some t)
    (hnd : c.pc ≠ CallPc.done 0) (hd : w'.pcOf tid = some (CallPc.done 0)) :
    c.pc = CallPc.unlocked ∧ w'.toGlobals = w.toGlobals ∧ w'.mutex = w.mutex
      ∧ w'.trace = w.trace := by
  rcases step_call_cases h hc with h1 | ⟨outs, _, hm⟩ | ⟨_, h1⟩
  · simp [World.pcOf, h1] at hd
    exact absurd hd hnd
  · cases hm with
    | stub pc' hs _ _ => rw [ht] at hs; cases hs
    | writeFail evs r _ hr _ =>
      simp [World.pcOf, World.setPc, World.log, setPcAt_get hc] at hd
      omega
    | writeSync evs _ _ _ => simp [World.pcOf, World.setPc, World.log, setPcAt_get hc] at hd
    | writeNoSync evs _ hf _ => rw [hsync] at hf; cases hf
    | acquire _ _ => simp [World.pcOf, World.setPc, World.log, setPcAt_get hc] at hd
    | block t' _ _ _ =>
      simp [World.pcOf, pthread_cond_wait, World.setPc, World.log, setPcAt_get hc] at hd
    | leave t' _ _ _ => simp [World.pcOf, World.setPc, World.log, setPcAt_get hc] at hd
    | release _ =>
      simp [World.pcOf, pthread_mutex_unlock, World.setPc, World.log, setPcAt_get hc] at hd
    | finish hs => exact ⟨hs, rfl, rfl, rfl⟩
  · simp [World.pcOf, h1] at hd

theorem step_afterWrite {w w' : World} {a : Action} {tid : Nat} {c : Call}
    (h : step w a = some w') (hc : w.calls[tid]? = some c) (hp : c.pc.afterWrite = true) :
    ∃ c', w'.calls[tid]? = some c' ∧ c'.op = c.op ∧ c'.pc.afterWrite = true := by
  rcases step_call_cases h hc with h1 | ⟨outs, _, hm⟩ | ⟨_, h1⟩
  · exact ⟨c, h1, rfl, hp⟩
  · cases hm with
    | stub pc' _ hs _ => rw [hs] at hp; cases hp
    | writeFail evs r hs _ _ => rw [hs] at hp; cases hp
    | writeSync evs hs _ _ => rw [hs] at hp; cases hp
    | writeNoSync evs hs _ _ => rw [hs] at hp; cases hp
    | acquire _ _ =>
      exact ⟨{ c with pc := CallPc.check }, by simp [World.setPc, World.log, setPcAt_get hc],
        rfl, rfl⟩
    | block t' _ _ _ =>
      exact ⟨{ c with pc := CallPc.waiting },
        by simp [pthread_cond_wait, World.setPc, World.log, setPcAt_get hc], rfl, rfl⟩
    | leave t' _ _ _ =>
      exact ⟨{ c with pc := CallPc.unlock }, by simp [World.setPc, setPcAt_get hc], rfl, rfl⟩
    | release _ =>
      exact ⟨{ c with pc := CallPc.unlocked },
        by simp [pthread_mutex_unlock, World.setPc, World.log, setPcAt_get hc], rfl, rfl⟩
    | finish _ =>
      exact ⟨{ c with pc := CallPc.done 0 }, by simp [World.setPc, setPcAt_get hc], rfl, rfl⟩
  · exact ⟨_, h1, rfl, rfl⟩

theorem run_afterWrite {w w' : World} {as : List Action} {tid : Nat} {c : Call}
    (h : run w as = some w') (hc : w.calls[tid]? = some c) (hp : c.pc.afterWrite = true) :
    ∃ c', w'.calls[tid]? = some c' ∧ c'.op = c.op ∧ c'.pc.afterWrite = true := by
  induction as generalizing w c with
  | nil =>
    simp only [run, Option.some.injEq] at h
    subst h
    exact ⟨c, hc, rfl, hp⟩
  | cons a as ih =>
    unfold run at h
    cases hs : step w a with
    | none => simp [hs] at h
    | some v =>
      simp only [hs] at h
      obtain ⟨c1, hc1, hop1, hp1⟩ := step_afterWrite hs hc hp
      obtain ⟨c2, hc2, hop2, hp2⟩ := ih h hc1 hp1
      exact ⟨c2, hc2, by rw [hop2, hop1], hp2⟩

theorem step_outsideWait {w w' : World} {a : Action} {tid : Nat} {c : Call} {t : Phase}
    (h : step w a = some w') (hc : w.calls[tid]? = some c) (ht : c.op.target = some t)
    (hp : c.pc.outsideWait = true) (heq : w.earlysuspend_state = t) :
    ∃ c', w'.calls[tid]? = some c' ∧ c'.op = c.op ∧ c'.pc.outsideWait = true := by
  rcases step_call_cases h hc with h1 | ⟨outs, _, hm⟩ | ⟨hw, _⟩
  · exact ⟨c, h1, rfl, hp⟩
  · cases hm with
    | stub pc' hs _ _ => rw [ht] at hs; cases hs
    | writeFail evs r _ _ _ =>
      exact ⟨{ c with pc := CallPc.done r },
        by simp [World.setPc, World.log, setPcAt_get hc], rfl, rfl⟩
    | writeSync evs _ _ _ =>
      exact ⟨{ c with pc := CallPc.lock },
        by simp [World.setPc, World.log, setPcAt_get hc], rfl, rfl⟩
    | writeNoSync evs _ _ _ =>
      exact ⟨{ c with pc := CallPc.done 0 },
        by simp [World.setPc, World.log, setPcAt_get hc], rfl, rfl⟩
    | acquire _ _ =>
      exact ⟨{ c with pc := CallPc.check },
        by simp [World.setPc, World.log, setPcAt_get hc], rfl, rfl⟩
    | block t' ht' _ hne =>
      rw [ht] at ht'
      cases ht'
      exact absurd heq hne
    | leave t' _ _ _ =>
      exact ⟨{ c with pc := CallPc.unlock }, by simp [World.setPc, setPcAt_get hc], rfl, rfl⟩
    | release _ =>
      exact ⟨{ c with pc := CallPc.unlocked },
        by simp [pthread_mutex_unlock, World.setPc, World.log, setPcAt_get hc], rfl, rfl⟩
    | finish _ =>
      exact ⟨{ c with pc := CallPc.done 0 }, by simp [World.setPc, setPcAt_get hc], rfl, rfl⟩
  · rw [hw] at hp
    cases hp

theorem runWhile_outsideWait {w w' : World} {bs : List Action} {tid : Nat} {c : Call}
    {t : Phase}
    (h : runWhile (fun v => decide (v.earlysuspend_state = t)) w bs = some w')
    (hc : w.calls[tid]? = some c) (ht : c.op.target = some t)
    (hp : c.pc.outsideWait = true) :
    ∃ c', w'.calls[tid]? = some c' ∧ c'.op = c.op ∧ c'.pc.outsideWait = true := by
  induction bs generalizing w c with
  | nil =>
    unfold runWhile at h
    split at h
    · simp only [Option.some.injEq] at h
      subst h
      exact ⟨c, hc, rfl, hp⟩
    · simp at h
  | cons b bs ih =>
    unfold runWhile at h
    split at h
    · rename_i heq
      cases hs : step w b with
      | none => simp [hs] at h
      | some v =>
        simp only [hs] at h
        obtain ⟨c1, hc1, hop1, hp1⟩ := step_outsideWait hs hc ht hp (by simpa using heq)
        obtain ⟨c2, hc2, hop2, hp2⟩ := ih h hc1 (by rw [hop1]; exact ht) hp1
        exact ⟨c2, hc2, by rw [hop2, hop1], hp2⟩
    · simp at h

theorem step_notReturnedZero {w w' : World} {a : Action} {tid : Nat} {c : Call} {t : Phase}
    (h : step w a = some w') (hsync : w.wait_for_earlysuspend = true)
    (hc : w.calls[tid]? = some c) (ht : c.op.target = some t)
    (hp : c.pc.notReturnedZero = true) (hne : w.earlysuspend_state ≠ t) :
    ∃ c', w'.calls[tid]? = some c' ∧ c'.op = c.op ∧ c'.pc.notReturnedZero = true
      ∧ (c.pc.pending = true → c'.pc.pending = true) := by
  rcases step_call_cases h hc with h1 | ⟨outs, _, hm⟩ | ⟨_, h1⟩
  · exact ⟨c, h1, rfl, hp, id⟩
  · cases hm with
    | stub pc' hs _ _ => rw [ht] at hs; cases hs
    | writeFail evs r hs hr _ =>
      refine ⟨{ c with pc := CallPc.done r },
        by simp [World.setPc, World.log, setPcAt_get hc], rfl, ?_, ?_⟩
      · simp [CallPc.notReturnedZero, hr]
      · intro hh
        rw [hs] at hh
        cases hh
    | writeSync evs hs _ _ =>
      refine ⟨{ c with pc := CallPc.lock },
        by simp [World.setPc, World.log, setPcAt_get hc], rfl, rfl, ?_⟩
      intro hh
      rw [hs] at hh
      cases hh
    | writeNoSync evs _ hf _ => rw [hsync] at hf; cases hf
    | acquire _ _ =>
      exact ⟨{ c with pc := CallPc.check }, by simp [World.setPc, World.log, setPcAt_get hc],
        rfl, rfl, fun _ => rfl⟩
    | block t' _ _ _ =>
      exact ⟨{ c with pc := CallPc.waiting },
        by simp [pthread_cond_wait, World.setPc, World.log, setPcAt_get hc], rfl, rfl,
        fun _ => rfl⟩
    | leave t' ht' _ hp' =>
      rw [ht] at ht'
      cases ht'
      exact absurd hp' hne
    | release hs => rw [hs] at hp; cases hp
    | finish hs => rw [hs] at hp; cases hp
  · exact ⟨_, h1, rfl, rfl, fun _ => rfl⟩

/-- Once the watcher has exited it stays so, and nothing assigns the phase. -/
theorem step_exited {w w' : World} {a : Action} (h : step w a = some w')
    (hx : w.watcher = WatcherPc.exited) :
    w'.watcher = WatcherPc.exited ∧ w'.earlysuspend_state = w.earlysuspend_state := by
  cases a with
  | caller tid outs =>
    obtain ⟨c, _, hm⟩ := step_caller_move h
    obtain ⟨hg, hw, _⟩ := hm.frame
    exact ⟨hw.trans hx, by rw [hg]⟩
  | watcher openOuts readOuts pick =>
    simp [step, earlysuspend_thread_func, hx] at h
  | spurious tid =>
    obtain ⟨hg, hw, _⟩ := spurious_step_frame h
    exact ⟨hw.trans hx, by rw [hg]⟩

theorem run_exited {w w' : World} {as : List Action} {tid : Nat} {c : Call} {t : Phase}
    (h : run w as = some w') (hx : w.watcher = WatcherPc.exited)
    (hsync : w.wait_for_earlysuspend = true)
    (hc : w.calls[tid]? = some c) (ht : c.op.target = some t)
    (hp : c.pc.notReturnedZero = true) (hne : w.earlysuspend_state ≠ t) :
    w'.watcher = WatcherPc.exited ∧ w'.earlysuspend_state = w.earlysuspend_state ∧
    ∃ c', w'.calls[tid]? = some c' ∧ c'.op = c.op ∧ c'.pc.notReturnedZero = true
      ∧ (c.pc.pending = true → c'.pc.pending = true) := by
  induction as generalizing w c with
  | nil =>
    simp only [run, Option.some.injEq] at h
    subst h
    exact ⟨hx, rfl, c, hc, rfl, hp, id⟩
  | cons a as ih =>
    unfold run at h
    cases hs : step w a with
    | none => simp [hs] at h
    | some v =>
      simp only [hs] at h
      obtain ⟨hx1, hph1⟩ := step_exited hs hx
      obtain ⟨c1, hc1, hop1, hp1, hpend1⟩ := step_notReturnedZero hs hsync hc ht hp hne
      obtain ⟨hx2, hph2, c2, hc2, hop2, hp2, hpend2⟩ :=
        ih h hx1 (by rw [(step_frame hs).1]; exact hsync) hc1 (by rw [hop1]; exact ht) hp1
          (by rw [hph1]; exact hne)
      exact ⟨hx2, hph2.trans hph1, c2, hc2, by rw [hop2, hop1], hp2,
        fun hh => hpend2 (hpend1 hh)⟩

theorem history_append (a b : List (Actor × Event)) :
    history (a ++ b) = history a ++ history b := by
  simp [history]

theorem history_caller (tid : Nat) (evs : List Event)
    (h : ∀ e ∈ evs, ∀ p, e ≠ Event.assign p) :
    history (evs.map (fun e => (Actor.caller tid, e))) = [] := by
  simp only [history, List.filterMap_eq_nil_iff, List.mem_map]
  rintro x ⟨e, he, rfl⟩
  cases e <;> first | rfl | exact absurd rfl (h _ he _)

theorem history_init (evs : List Event)
    (h : ∀ e ∈ evs, ∀ p, e ≠ Event.assign p) :
    history (evs.map (fun e => (Actor.init, e))) = [] := by
  simp only [history, List.filterMap_eq_nil_iff, List.mem_map]
  rintro x ⟨e, he, rfl⟩
  cases e <;> first | rfl | exact absurd rfl (h _ he _)

theorem history_reads (path : Path) (fd : Int) {outs att : List SysRet} {r : SysRet}
    (h : TEMP_FAILURE_RETRY outs = some (r, att)) :
    history (att.map (fun o => (Actor.watcher, Event.sysRead path fd o)))
      = [if r.ret < 0 then Obs.readFail path else Obs.readOk path] := by
  obtain ⟨k, hk, _⟩ := TEMP_FAILURE_RETRY_attempts h
  have hfin := TEMP_FAILURE_RETRY_final h
  subst hk
  simp only [List.map_append, List.map_replicate, List.map_cons, List.map_nil, history_append]
  have h1 : history (List.replicate k
      (Actor.watcher, Event.sysRead path fd { ret := -1, errno := EINTR })) = [] := by
    simp only [history, List.filterMap_eq_nil_iff]
    intro x hx
    rw [List.eq_of_mem_replicate hx]
    simp [observe]
  rw [h1]
  simp only [history, List.nil_append]
  by_cases hneg : r.ret < 0
  · simp [List.filterMap_cons, observe, hfin, hneg]
  · simp [List.filterMap_cons, observe, hfin, hneg]

theorem wait_for_fb_sleep_history {openOuts readOuts : List SysRet} {err : Int}
    {evs : List Event} (h : wait_for_fb_sleep openOuts readOuts = some (err, evs)) :
    history (evs.map (fun e => (Actor.watcher, e)))
      = [if err ≠ 0 then Obs.readFail Path.EARLYSUSPEND_WAIT_FOR_FB_SLEEP
         else Obs.readOk Path.EARLYSUSPEND_WAIT_FOR_FB_SLEEP] := by
  unfold wait_for_fb_sleep at h
  cases h1 : TEMP_FAILURE_RETRY openOuts with
  | none => simp [h1] at h
  | some x =>
    obtain ⟨fd, opens⟩ := x
    simp only [h1] at h
    cases h2 : TEMP_FAILURE_RETRY (readOutcomes fd.ret readOuts) with
    | none => simp [h2] at h
    | some y =>
      obtain ⟨r, reads⟩ := y
      simp only [h2, Option.some.injEq, Prod.mk.injEq] at h
      obtain ⟨he, hevs⟩ := h
      subst hevs
      simp only [List.map_append, List.map_map, history_append]
      have ho : history (List.map ((fun e => (Actor.watcher, e)) ∘
          Event.sysOpen Path.EARLYSUSPEND_WAIT_FOR_FB_SLEEP) opens) = [] := by
        simp only [history, List.filterMap_eq_nil_iff, List.mem_map]
        rintro x ⟨e, _, rfl⟩
        rfl
      have hr := history_reads Path.EARLYSUSPEND_WAIT_FOR_FB_SLEEP fd.ret h2
      have hcl : history (List.map (fun e => (Actor.watcher, e)) [Event.sysClose fd.ret]) = [] :=
        rfl
      rw [ho, hcl]
      simp only [List.nil_append, List.append_nil]
      have : (List.map ((fun e => (Actor.watcher, e)) ∘
          Event.sysRead Path.EARLYSUSPEND_WAIT_FOR_FB_SLEEP fd.ret) reads)
          = reads.map (fun o =>
            (Actor.watcher, Event.sysRead Path.EARLYSUSPEND_WAIT_FOR_FB_SLEEP fd.ret o)) := rfl
      rw [this, hr]
      by_cases hneg : r.ret < 0
      · have : err ≠ 0 := by simp [hneg] at he; omega
        simp [hneg, this]
      · have : err = 0 := by simp [hneg] at he; omega
        simp [hneg, this]

theorem wait_for_fb_wake_history {openOuts readOuts : List SysRet} {err : Int}
    {evs : List Event} (h : wait_for_fb_wake openOuts readOuts = some (err, evs)) :
    history (evs.map (fun e => (Actor.watcher, e)))
      = [if err ≠ 0 then Obs.readFail Path.EARLYSUSPEND_WAIT_FOR_FB_WAKE
         else Obs.readOk Path.EARLYSUSPEND_WAIT_FOR_FB_WAKE] := by
  unfold wait_for_fb_wake at h
  cases h1 : TEMP_FAILURE_RETRY openOuts with
  | none => simp [h1] at h
  | some x =>
    obtain ⟨fd, opens⟩ := x
    simp only [h1] at h
    cases h2 : TEMP_FAILURE_RETRY (readOutcomes fd.ret readOuts) with
    | none => simp [h2] at h
    | some y =>
      obtain ⟨r, reads⟩ := y
      simp only [h2, Option.some.injEq, Prod.mk.injEq] at h
      obtain ⟨he, hevs⟩ := h
      subst hevs
      simp only [List.map_append, List.map_map, history_append]
      have ho : history (List.map ((fun e => (Actor.watcher, e)) ∘
          Event.sysOpen Path.EARLYSUSPEND_WAIT_FOR_FB_WAKE) opens) = [] := by
        simp only [history, List.filterMap_eq_nil_iff, List.mem_map]
        rintro x ⟨e, _, rfl⟩
        rfl
      have hr := history_reads Path.EARLYSUSPEND_WAIT_FOR_FB_WAKE fd.ret h2
      have hcl : history (List.map (fun e => (Actor.watcher, e)) [Event.sysClose fd.ret]) = [] :=
        rfl
      rw [ho, hcl]
      simp only [List.nil_append, List.append_nil]
      have : (List.map ((fun e => (Actor.watcher, e)) ∘
          Event.sysRead Path.EARLYSUSPEND_WAIT_FOR_FB_WAKE fd.ret) reads)
          = reads.map (fun o =>
            (Actor.watcher, Event.sysRead Path.EARLYSUSPEND_WAIT_FOR_FB_WAKE fd.ret o)) := rfl
      rw [this, hr]
      by_cases hneg : r.ret < 0
      · have : err ≠ 0 := by simp [hneg] at he; omega
        simp [hneg, this]
      · have : err = 0 := by simp [hneg] at he; omega
        simp [hneg, this]

theorem phaseAfter_readOk (h : List Obs) (path : Path) :
    phaseAfter (h ++ [Obs.readOk path]) = phaseAfter h := by
  simp [phaseAfter]

theorem phaseAfter_readFail (h : List Obs) (path : Path) :
    phaseAfter (h ++ [Obs.readFail path]) = phaseAfter h := by
  simp [phaseAfter]

theorem phaseAfter_assign (h : List Obs) (a : Actor) (p : Phase) :
    phaseAfter (h ++ [Obs.assign a p]) = p := by
  simp [phaseAfter]

/-- A move of a call adds nothing to the history. -/
theorem CallerMove.history_eq {w w' : World} {tid : Nat} {c : Call}
    (hm : CallerMove w tid c w') : history w'.trace = history w.trace := by
  have hw : ∀ evs : List Event, (∀ e ∈ evs, ∃ fd b o, e = Event.sysWrite fd b o) →
      history (w.trace ++ evs.map (fun e => (Actor.caller tid, e))) = history w.trace := by
    intro evs hevs
    rw [history_append, history_caller, List.append_nil]
    intro e he p hp
    obtain ⟨fd, b, o, rfl⟩ := hevs e he
    cases hp
  cases hm with
  | stub pc' _ _ _ => rfl
  | writeFail evs r _ _ hevs => exact hw evs hevs
  | writeSync evs _ _ hevs => exact hw evs hevs
  | writeNoSync evs _ _ hevs => exact hw evs hevs
  | acquire _ _ =>
    show history (w.trace ++ [(Actor.caller tid, Event.lock)]) = _
    rw [history_append]
    simp [history, observe]
  | block t _ _ _ =>
    show history (w.trace ++ [(Actor.caller tid, Event.condWait)]) = _
    rw [history_append]
    simp [history, observe]
  | leave t _ _ _ => rfl
  | release _ =>
    show history (w.trace ++ [(Actor.caller tid, Event.unlock)]) = _
    rw [history_append]
    simp [history, observe]
  | finish _ => rfl

theorem pthread_cond_signal_history (pick : Nat) (w : World) :
    history (pthread_cond_signal Actor.watcher pick w).trace = history w.trace
      ∧ (pthread_cond_signal Actor.watcher pick w).earlysuspend_state = w.earlysuspend_state
      ∧ (pthread_cond_signal Actor.watcher pick w).watcher = w.watcher
      ∧ (pthread_cond_signal Actor.watcher pick w).mutex = w.mutex := by
  rcases pthread_cond_signal_cases Actor.watcher pick w with ⟨_, e⟩ | ⟨tid, c, _, _, e⟩
  · rw [e]
    refine ⟨?_, rfl, rfl, rfl⟩
    show history (w.trace ++ [(Actor.watcher, Event.condSignal none)]) = _
    rw [history_append]
    simp [history, observe]
  · rw [e]
    refine ⟨?_, rfl, rfl, rfl⟩
    show history (w.trace ++ [(Actor.watcher, Event.condSignal (some tid))]) = _
    rw [history_append]
    simp [history, observe]

theorem HistInv.ofRunning {w : World} {k n : Nat}
    (hphase : w.earlysuspend_state = phaseAfter (history w.trace))
    (hstage : w.watcher.stage = some k) (hn : n % 4 = k) (hh : history w.trace = ideal n) :
    HistInv w := by
  refine ⟨hphase, ?_, ?_, ?_⟩
  · intro hw
    rw [hw] at hstage
    cases hstage
  · intro k' hk'
    rw [hstage] at hk'
    cases hk'
    exact ⟨n, hn, hh⟩
  · intro hw
    rw [hw] at hstage
    cases hstage

theorem HistInv.ofStopped {w : World} {n : Nat}
    (hphase : w.earlysuspend_state = phaseAfter (history w.trace))
    (hx : w.watcher = WatcherPc.exited)
    (hh : (n % 4 = 0 ∧
        history w.trace = ideal n ++ [Obs.readFail Path.EARLYSUSPEND_WAIT_FOR_FB_SLEEP])
      ∨ (n % 4 = 2 ∧
        history w.trace = ideal n ++ [Obs.readFail Path.EARLYSUSPEND_WAIT_FOR_FB_WAKE])) :
    HistInv w := by
  refine ⟨hphase, ?_, ?_, fun _ => ⟨n, hh⟩⟩
  · intro hw
    rw [hx] at hw
    cases hw
  · intro k hk
    rw [hx] at hk
    cases hk

/-- Keeping the watcher, the phase and the history keeps `HistInv`. -/
theorem HistInv.same {w w' : World} (hi : HistInv w) (hw : w'.watcher = w.watcher)
    (hp : w'.earlysuspend_state = w.earlysuspend_state)
    (hh : history w'.trace = history w.trace) : HistInv w' := by
  refine ⟨by rw [hp, hh]; exact hi.phase, ?_, ?_, ?_⟩
  · intro h
    rw [hh]
    exact hi.idle (hw ▸ h)
  · intro k hk
    rw [hh]
    exact hi.running k (hw ▸ hk)
  · intro h
    rw [hh]
    exact hi.stopped (hw ▸ h)

theorem idealObs_0 {n : Nat} (h : n % 4 = 0) :
    idealObs n = Obs.readOk Path.EARLYSUSPEND_WAIT_FOR_FB_SLEEP := by
  simp [idealObs, h]

theorem idealObs_1 {n : Nat} (h : n % 4 = 1) :
    idealObs n = Obs.assign Actor.watcher Phase.EARLYSUSPEND_MEM := by
  simp [idealObs, h]

theorem idealObs_2 {n : Nat} (h : n % 4 = 2) :
    idealObs n = Obs.readOk Path.EARLYSUSPEND_WAIT_FOR_FB_WAKE := by
  simp [idealObs, h]

theorem idealObs_3 {n : Nat} (h : n % 4 = 3) :
    idealObs n = Obs.assign Actor.watcher Phase.EARLYSUSPEND_ON := by
  simp [idealObs, h]

theorem watcher_step_hist {w w' : World} {openOuts readOuts : List SysRet} {pick : Nat}
    (h : earlysuspend_thread_func openOuts readOuts pick w = some w') (hi : HistInv w) :
    HistInv w' := by
  unfold earlysuspend_thread_func at h
  cases hw : w.watcher <;> simp only [hw] at h
  · simp at h
  · -- sleepRead
    obtain ⟨n, hn, hh⟩ := hi.running 0 (by rw [hw]; rfl)
    cases hr : wait_for_fb_sleep openOuts readOuts with
    | none => simp [hr] at h
    | some x =>
      obtain ⟨err, evs⟩ := x
      have hev := wait_for_fb_sleep_history hr
      simp only [hr] at h
      split at h <;> (simp only [Option.some.injEq] at h; subst h)
      · rename_i herr
        have hh' : history (w.trace ++ evs.map (fun e => (Actor.watcher, e)))
            = ideal n ++ [Obs.readFail Path.EARLYSUSPEND_WAIT_FOR_FB_SLEEP] := by
          rw [history_append, hh, hev]
          simp [herr]
        refine HistInv.ofStopped ?_ rfl (Or.inl ⟨hn, hh'⟩)
        show w.earlysuspend_state = phaseAfter (history (w.trace ++ _))
        try simp only [List.map_cons, List.map_nil]
        rw [hh', phaseAfter_readFail, ← hh]
        exact hi.phase
      · rename_i herr
        have hh' : history (w.trace ++ evs.map (fun e => (Actor.watcher, e)))
            = ideal (n + 1) := by
          rw [history_append, hh, hev]
          simp [herr, ideal, idealObs_0 hn]
        refine HistInv.ofRunning (k := 1) (n := n + 1) ?_ rfl (by omega) hh'
        show w.earlysuspend_state = phaseAfter (history (w.trace ++ _))
        try simp only [List.map_cons, List.map_nil]
        rw [hh']
        show _ = phaseAfter (ideal n ++ [idealObs n])
        rw [idealObs_0 hn, phaseAfter_readOk, ← hh]
        exact hi.phase
  · -- memLock
    obtain ⟨n, hn, hh⟩ := hi.running 1 (by rw [hw]; rfl)
    simp only [pthread_mutex_lock] at h
    split at h
    · simp only [Option.map_some', Option.some.injEq] at h
      subst h
      have hh' : history (w.trace ++ [(Actor.watcher, Event.lock)]) = ideal n := by
        rw [history_append, hh]
        simp [history, observe]
      refine HistInv.ofRunning (k := 1) (n := n) ?_ rfl hn hh'
      show w.earlysuspend_state = phaseAfter (history (w.trace ++ _))
      try simp only [List.map_cons, List.map_nil]
      rw [hh', ← hh]
      exact hi.phase
    · simp at h
  · -- memSet
    obtain ⟨n, hn, hh⟩ := hi.running 1 (by rw [hw]; rfl)
    simp only [Option.some.injEq] at h
    subst h
    have hh' : history (w.trace ++ [(Actor.watcher, Event.assign Phase.EARLYSUSPEND_MEM)])
        = ideal (n + 1) := by
      rw [history_append, hh]
      simp [history, observe, ideal, idealObs_1 hn]
    refine HistInv.ofRunning (k := 2) (n := n + 1) ?_ rfl (by omega) hh'
    show Phase.EARLYSUSPEND_MEM = phaseAfter (history (w.trace ++ _))
    try simp only [List.map_cons, List.map_nil]
    rw [hh']
    show _ = phaseAfter (ideal n ++ [idealObs n])
    rw [idealObs_1 hn, phaseAfter_assign]
  · -- memSignal
    obtain ⟨n, hn, hh⟩ := hi.running 2 (by rw [hw]; rfl)
    simp only [Option.some.injEq] at h
    subst h
    obtain ⟨h1, h2, _, _⟩ := pthread_cond_signal_history pick w
    refine HistInv.ofRunning (k := 2) (n := n) ?_ rfl hn (h1.trans hh)
    show (pthread_cond_signal Actor.watcher pick w).earlysuspend_state
      = phaseAfter (history (pthread_cond_signal Actor.watcher pick w).trace)
    rw [h1, h2]
    exact hi.phase
  · -- memUnlock
    obtain ⟨n, hn, hh⟩ := hi.running 2 (by rw [hw]; rfl)
    simp only [Option.some.injEq] at h
    subst h
    have hh' : history (w.trace ++ [(Actor.watcher, Event.unlock)]) = ideal n := by
      rw [history_append, hh]
      simp [history, observe]
    refine HistInv.ofRunning (k := 2) (n := n) ?_ rfl hn hh'
    show w.earlysuspend_state = phaseAfter (history (w.trace ++ _))
    try simp only [List.map_cons, List.map_nil]
    rw [hh', ← hh]
    exact hi.phase
  · -- wakeRead
    obtain ⟨n, hn, hh⟩ := hi.running 2 (by rw [hw]; rfl)
    cases hr : wait_for_fb_wake openOuts readOuts with
    | none => simp [hr] at h
    | some x =>
      obtain ⟨err, evs⟩ := x
      have hev := wait_for_fb_wake_history hr
      simp only [hr] at h
      split at h <;> (simp only [Option.some.injEq] at h; subst h)
      · rename_i herr
        have hh' : history (w.trace ++ evs.map (fun e => (Actor.watcher, e)))
            = ideal n ++ [Obs.readFail Path.EARLYSUSPEND_WAIT_FOR_FB_WAKE] := by
          rw [history_append, hh, hev]
          simp [herr]
        refine HistInv.ofStopped ?_ rfl (Or.inr ⟨hn, hh'⟩)
        show w.earlysuspend_state = phaseAfter (history (w.trace ++ _))
        try simp only [List.map_cons, List.map_nil]
        rw [hh', phaseAfter_readFail, ← hh]
        exact hi.phase
      · rename_i herr
        have hh' : history (w.trace ++ evs.map (fun e => (Actor.watcher, e)))
            = ideal (n + 1) := by
          rw [history_append, hh, hev]
          simp [herr, ideal, idealObs_2 hn]
        refine HistInv.ofRunning (k := 3) (n := n + 1) ?_ rfl (by omega) hh'
        show w.earlysuspend_state = phaseAfter (history (w.trace ++ _))
        try simp only [List.map_cons, List.map_nil]
        rw [hh']
        show _ = phaseAfter (ideal n ++ [idealObs n])
        rw [idealObs_2 hn, phaseAfter_readOk, ← hh]
        exact hi.phase
  · -- onLock
    obtain ⟨n, hn, hh⟩ := hi.running 3 (by rw [hw]; rfl)
    simp only [pthread_mutex_lock] at h
    split at h
    · simp only [Option.map_some', Option.some.injEq] at h
      subst h
      have hh' : history (w.trace ++ [(Actor.watcher, Event.lock)]) = ideal n := by
        rw [history_append, hh]
        simp [history, observe]
      refine HistInv.ofRunning (k := 3) (n := n) ?_ rfl hn hh'
      show w.earlysuspend_state = phaseAfter (history (w.trace ++ _))
      try simp only [List.map_cons, List.map_nil]
      rw [hh', ← hh]
      exact hi.phase
    · simp at h
  · -- onSet
    obtain ⟨n, hn, hh⟩ := hi.running 3 (by rw [hw]; rfl)
    simp only [Option.some.injEq] at h
    subst h
    have hh' : history (w.trace ++ [(Actor.watcher, Event.assign Phase.EARLYSUSPEND_ON)])
        = ideal (n + 1) := by
      rw [history_append, hh]
      simp [history, observe, ideal, idealObs_3 hn]
    refine HistInv.ofRunning (k := 0) (n := n + 1) ?_ rfl (by omega) hh'
    show Phase.EARLYSUSPEND_ON = phaseAfter (history (w.trace ++ _))
    try simp only [List.map_cons, List.map_nil]
    rw [hh']
    show _ = phaseAfter (ideal n ++ [idealObs n])
    rw [idealObs_3 hn, phaseAfter_assign]
  · -- onSignal
    obtain ⟨n, hn, hh⟩ := hi.running 0 (by rw [hw]; rfl)
    simp only [Option.some.injEq] at h
    subst h
    obtain ⟨h1, h2, _, _⟩ := pthread_cond_signal_history pick w
    refine HistInv.ofRunning (k := 0) (n := n) ?_ rfl hn (h1.trans hh)
    show (pthread_cond_signal Actor.watcher pick w).earlysuspend_state
      = phaseAfter (history (pthread_cond_signal Actor.watcher pick w).trace)
    rw [h1, h2]
    exact hi.phase
  · -- onUnlock
    obtain ⟨n, hn, hh⟩ := hi.running 0 (by rw [hw]; rfl)
    simp only [Option.some.injEq] at h
    subst h
    have hh' : history (w.trace ++ [(Actor.watcher, Event.unlock)]) = ideal n := by
      rw [history_append, hh]
      simp [history, observe]
    refine HistInv.ofRunning (k := 0) (n := n) ?_ rfl hn hh'
    show w.earlysuspend_state = phaseAfter (history (w.trace ++ _))
    try simp only [List.map_cons, List.map_nil]
    rw [hh', ← hh]
    exact hi.phase
  · simp at h

theorem step_hist {w w' : World} {a : Action} (h : step w a = some w') (hi : HistInv w) :
    HistInv w' := by
  cases a with
  | caller tid outs =>
    obtain ⟨c, _, hm⟩ := step_caller_move h
    obtain ⟨hg, hw, _⟩ := hm.frame
    exact hi.same hw (by rw [hg]) hm.history_eq
  | watcher openOuts readOuts pick => exact watcher_step_hist h hi
  | spurious tid =>
    obtain ⟨hg, hw, _, htr, _⟩ := spurious_step_frame h
    exact hi.same hw (by rw [hg]) (by rw [htr])

theorem run_hist {w w' : World} {as : List Action} (h : run w as = some w')
    (hi : HistInv w) : HistInv w' := by
  induction as generalizing w with
  | nil =>
    simp only [run, Option.some.injEq] at h
    exact h ▸ hi
  | cons a as ih =>
    unfold run at h
    cases hs : step w a with
    | none => simp [hs] at h
    | some v =>
      simp only [hs] at h
      exact ih h (step_hist hs hi)

theorem wait_for_fb_wake_events {openOuts readOuts : List SysRet} {err : Int}
    {evs : List Event} (h : wait_for_fb_wake openOuts readOuts = some (err, evs)) :
    ∀ e ∈ evs, (∃ x, e = Event.sysOpen Path.EARLYSUSPEND_WAIT_FOR_FB_WAKE x)
      ∨ (∃ fd x, e = Event.sysRead Path.EARLYSUSPEND_WAIT_FOR_FB_WAKE fd x)
      ∨ (∃ fd, e = Event.sysClose fd) := by
  unfold wait_for_fb_wake at h
  split at h
  · simp at h
  · split at h
    · simp at h
    · simp only [Option.some.injEq, Prod.mk.injEq] at h
      obtain ⟨_, h⟩ := h
      subst h
      intro e he
      simp only [List.mem_append, List.mem_map, List.mem_singleton] at he
      rcases he with (⟨x, _, rfl⟩ | ⟨x, _, rfl⟩) | rfl
      · exact Or.inl ⟨x, rfl⟩
      · exact Or.inr (Or.inl ⟨_, x, rfl⟩)
      · exact Or.inr (Or.inr ⟨_, rfl⟩)

theorem init_sync_iff (env : InitEnv) (r : InitResult)
    (h : autosuspend_earlysuspend_init env InitState.initial = some r) :
    (r.s.g.wait_for_earlysuspend = true ↔
      ((∃ a, (Actor.init, Event.sysAccess Path.EARLYSUSPEND_WAIT_FOR_FB_SLEEP a) ∈ r.s.trace
          ∧ 0 ≤ a.ret)
        ∧ (∃ b, (Actor.init, Event.sysAccess Path.EARLYSUSPEND_WAIT_FOR_FB_WAKE b) ∈ r.s.trace
          ∧ 0 ≤ b.ret)
        ∧ (Actor.init, Event.threadCreate 0) ∈ r.s.trace))
    ∧ (r.s.g.wait_for_earlysuspend = true ↔
        (r.ops ≠ none ∧ 0 ≤ env.accessSleep.ret ∧ 0 ≤ env.accessWake.ret
          ∧ env.threadCreate = 0))
    ∧ r.s.watcherStarted = r.s.g.wait_for_earlysuspend
    ∧ ((r.ops = none ∨ env.accessSleep.ret < 0 ∨ env.accessWake.ret < 0) →
        r.s.watcherStarted = false ∧
        ∀ x ∈ r.s.trace, x.2.isRead = false ∧ x.2.isThreadCreate = false) := by
  cases h1 : TEMP_FAILURE_RETRY env.openState with
  | none => simp [autosuspend_earlysuspend_init, h1] at h
  | some x =>
    obtain ⟨fd, opens⟩ := x
    by_cases hfd : fd.ret < 0
    · simp [autosuspend_earlysuspend_init, h1, hfd] at h
      subst h
      simp [InitState.initial, Globals.initial, InitState.log, Event.isRead,
        Event.isThreadCreate]
    · cases h2 : TEMP_FAILURE_RETRY env.writeOn with
      | none => simp [autosuspend_earlysuspend_init, h1, hfd, h2] at h
      | some y =>
        obtain ⟨ret, writes⟩ := y
        by_cases hret : ret.ret < 0
        · simp [autosuspend_earlysuspend_init, h1, hfd, h2, hret] at h
          subst h
          simp [InitState.initial, Globals.initial, InitState.log]
          intro a b hb
          rcases hb with ⟨o, _, rfl, rfl⟩ | ⟨o, _, rfl, rfl⟩ | ⟨rfl, rfl⟩ <;> exact ⟨rfl, rfl⟩
        · by_cases h4 : env.accessSleep.ret < 0
          · simp [autosuspend_earlysuspend_init, h1, hfd, h2, hret, start_earlysuspend_thread,
              h4] at h
            subst h
            simp [InitState.initial, Globals.initial, InitState.log, h4]
            intro a b hb
            rcases hb with ⟨o, _, rfl, rfl⟩ | ⟨o, _, rfl, rfl⟩ | ⟨rfl, rfl⟩ <;> exact ⟨rfl, rfl⟩
          · by_cases h5 : env.accessWake.ret < 0
            · simp [autosuspend_earlysuspend_init, h1, hfd, h2, hret,
                start_earlysuspend_thread, h4, h5] at h
              subst h
              simp [InitState.initial, Globals.initial, InitState.log, h4, h5]
              intro a b hb
              rcases hb with ⟨o, _, rfl, rfl⟩ | ⟨o, _, rfl, rfl⟩ | ⟨rfl, rfl⟩ | ⟨rfl, rfl⟩ <;>
                exact ⟨rfl, rfl⟩
            · cases h6 : wait_for_fb_wake env.openWake env.readWake with
              | none =>
                simp [autosuspend_earlysuspend_init, h1, hfd, h2, hret,
                  start_earlysuspend_thread, h4, h5, h6] at h
              | some z =>
                obtain ⟨err, evs⟩ := z
                have hev := wait_for_fb_wake_events h6
                by_cases h7 : env.threadCreate = 0
                · simp [autosuspend_earlysuspend_init, h1, hfd, h2, hret,
                    start_earlysuspend_thread, h4, h5, h6, h7] at h
                  subst h
                  simp [InitState.initial, Globals.initial, InitState.log, h4, h5, h7]
                  simp at h4 h5
                  exact ⟨⟨Or.inl h4, Or.inl h5⟩, h4, h5⟩
                · simp [autosuspend_earlysuspend_init, h1, hfd, h2, hret,
                    start_earlysuspend_thread, h4, h5, h6, h7] at h
                  subst h
                  simp [InitState.initial, Globals.initial, InitState.log, h4, h5, h7]
                  intro _ _
                  refine ⟨?_, fun hc => h7 hc.symm⟩
                  intro hmem
                  rcases hev _ hmem with ⟨x, hx⟩ | ⟨fd, x, hx⟩ | ⟨fd, hx⟩ <;> simp at hx

theorem InitState.log_history (s : InitState) (evs : List Event)
    (h : ∀ e ∈ evs, ∀ p, e ≠ Event.assign p) :
    history (s.log evs).trace = history s.trace := by
  show history (s.trace ++ evs.map (fun e => (Actor.init, e))) = _
  rw [history_append, history_init evs h, List.append_nil]

theorem wait_for_fb_wake_no_assign {openOuts readOuts : List SysRet} {err : Int}
    {evs : List Event} (h : wait_for_fb_wake openOuts readOuts = some (err, evs)) :
    ∀ e ∈ evs, ∀ p, e ≠ Event.assign p := by
  intro e he p hp
  rcases wait_for_fb_wake_events h e he with ⟨x, hx⟩ | ⟨fd, x, hx⟩ | ⟨fd, hx⟩ <;>
    (rw [hx] at hp; cases hp)

/-- The thread start-up code never assigns the phase. -/
theorem start_earlysuspend_thread_phase {env : InitEnv} {s s' : InitState}
    (h : start_earlysuspend_thread env s = some s') :
    s'.g.earlysuspend_state = s.g.earlysuspend_state ∧ history s'.trace = history s.trace := by
  have hacc : ∀ (t : InitState) (path : Path) (r : SysRet),
      history (t.log [Event.sysAccess path r]).trace = history t.trace := by
    intro t path r
    apply InitState.log_history
    intro e he p hp
    simp only [List.mem_singleton] at he
    rw [he] at hp
    cases hp
  unfold start_earlysuspend_thread at h
  simp only at h
  split at h
  · simp only [Option.some.injEq] at h
    subst h
    exact ⟨rfl, hacc _ _ _⟩
  · split at h
    · simp only [Option.some.injEq] at h
      subst h
      exact ⟨rfl, by rw [hacc, hacc]⟩
    · cases hr : wait_for_fb_wake env.openWake env.readWake with
      | none => simp [hr] at h
      | some x =>
        obtain ⟨err, evs⟩ := x
        have hna := wait_for_fb_wake_no_assign hr
        have hcr : ∀ (t : InitState),
            history (t.log [Event.threadCreate env.threadCreate]).trace = history t.trace := by
          intro t
          apply InitState.log_history
          intro e he p hp
          simp only [List.mem_singleton] at he
          rw [he] at hp
          cases hp
        simp only [hr] at h
        split at h
        · simp only [Option.some.injEq] at h
          subst h
          exact ⟨rfl, by rw [hcr, InitState.log_history _ _ hna, hacc, hacc]⟩
        · simp only [Option.some.injEq] at h
          subst h
          refine ⟨rfl, ?_⟩
          show history ((((s.log _).log _).log evs).log _).trace = _
          rw [hcr, InitState.log_history _ _ hna, hacc, hacc]

/-- Initialisation never assigns the phase. -/
theorem init_phase {env : InitEnv} {s : InitState} {r : InitResult}
    (h : autosuspend_earlysuspend_init env s = some r) :
    r.s.g.earlysuspend_state = s.g.earlysuspend_state ∧ history r.s.trace = history s.trace := by
  have hop : ∀ (t : InitState) (l : List SysRet),
      history (t.log (l.map (Event.sysOpen Path.EARLYSUSPEND_SYS_POWER_STATE))).trace
        = history t.trace := by
    intro t l
    apply InitState.log_history
    intro e he p hp
    simp only [List.mem_map] at he
    obtain ⟨x, _, rfl⟩ := he
    cases hp
  have hwr : ∀ (t : InitState) (fd : Int) (b : List Char) (l : List SysRet),
      history (t.log (l.map (Event.sysWrite fd b))).trace = history t.trace := by
    intro t fd b l
    apply InitState.log_history
    intro e he p hp
    simp only [List.mem_map] at he
    obtain ⟨x, _, rfl⟩ := he
    cases hp
  have hcl : ∀ (t : InitState) (fd : Int),
      history (t.log [Event.sysClose fd]).trace = history t.trace := by
    intro t fd
    apply InitState.log_history
    intro e he p hp
    simp only [List.mem_singleton] at he
    rw [he] at hp
    cases hp
  unfold autosuspend_earlysuspend_init at h
  cases h1 : TEMP_FAILURE_RETRY env.openState with
  | none => simp [h1] at h
  | some x =>
    obtain ⟨fd, opens⟩ := x
    simp only [h1] at h
    split at h
    · simp only [Option.some.injEq] at h
      subst h
      exact ⟨rfl, hop _ _⟩
    · cases h2 : TEMP_FAILURE_RETRY env.writeOn with
      | none => simp [h2] at h
      | some y =>
        obtain ⟨ret, writes⟩ := y
        simp only [h2] at h
        split at h
        · simp only [Option.some.injEq] at h
          subst h
          exact ⟨rfl, by rw [hcl, hwr, hop]⟩
        · split at h
          · simp at h
          · rename_i s' hs'
            simp only [Option.some.injEq] at h
            subst h
            obtain ⟨g1, g2⟩ := start_earlysuspend_thread_phase hs'
            exact ⟨g1, by rw [g2, hwr, hop]⟩

theorem boot_hist {env : InitEnv} {r : InitResult} (ops : List Op)
    (h : autosuspend_earlysuspend_init env InitState.initial = some r) :
    HistInv (boot r ops) := by
  obtain ⟨h1, h2⟩ := init_phase h
  have hh : history (boot r ops).trace = [] := by
    show history r.s.trace = []
    rw [h2]
    rfl
  have hp : (boot r ops).earlysuspend_state = Phase.EARLYSUSPEND_ON := by
    show r.s.g.earlysuspend_state = _
    rw [h1]
    rfl
  refine ⟨by rw [hh, hp]; rfl, fun _ => hh, ?_, ?_⟩
  · intro k hk
    simp only [boot] at hk
    split at hk
    · cases hk
      exact ⟨0, rfl, hh⟩
    · cases hk
  · intro hx
    simp only [boot] at hx
    split at hx <;> cases hx

theorem watcher_step_sig {w w' : World} {openOuts readOuts : List SysRet} {pick : Nat}
    (h : earlysuspend_thread_func openOuts readOuts pick w = some w') (hi : SigInv w) :
    SigInv w' := by
  unfold earlysuspend_thread_func at h
  cases hw : w.watcher <;> simp only [hw] at h
  · simp at h
  · cases hr : wait_for_fb_sleep openOuts readOuts with
    | none => simp [hr] at h
    | some x =>
      obtain ⟨err, evs⟩ := x
      simp only [hr] at h
      split at h <;> (simp only [Option.some.injEq] at h; subst h) <;>
        exact ⟨(by rintro (hh | hh) <;> cases hh), (by rintro (hh | hh) <;> cases hh)⟩
  · simp only [pthread_mutex_lock] at h
    split at h
    · simp only [Option.map_some', Option.some.injEq] at h
      subst h
      exact ⟨(by rintro (hh | hh) <;> cases hh), (by rintro (hh | hh) <;> cases hh)⟩
    · simp at h
  · simp only [Option.some.injEq] at h
    subst h
    exact ⟨fun _ => rfl, (by rintro (hh | hh) <;> cases hh)⟩
  · simp only [Option.some.injEq] at h
    subst h
    obtain ⟨_, h2, _, _⟩ := pthread_cond_signal_history pick w
    exact ⟨fun _ => h2.trans (hi.atMem (Or.inl hw)), (by rintro (hh | hh) <;> cases hh)⟩
  · simp only [Option.some.injEq] at h
    subst h
    exact ⟨(by rintro (hh | hh) <;> cases hh), (by rintro (hh | hh) <;> cases hh)⟩
  · cases hr : wait_for_fb_wake openOuts readOuts with
    | none => simp [hr] at h
    | some x =>
      obtain ⟨err, evs⟩ := x
      simp only [hr] at h
      split at h <;> (simp only [Option.some.injEq] at h; subst h) <;>
        exact ⟨(by rintro (hh | hh) <;> cases hh), (by rintro (hh | hh) <;> cases hh)⟩
  · simp only [pthread_mutex_lock] at h
    split at h
    · simp only [Option.map_some', Option.some.injEq] at h
      subst h
      exact ⟨(by rintro (hh | hh) <;> cases hh), (by rintro (hh | hh) <;> cases hh)⟩
    · simp at h
  · simp only [Option.some.injEq] at h
    subst h
    exact ⟨(by rintro (hh | hh) <;> cases hh), fun _ => rfl⟩
  · simp only [Option.some.injEq] at h
    subst h
    obtain ⟨_, h2, _, _⟩ := pthread_cond_signal_history pick w
    exact ⟨(by rintro (hh | hh) <;> cases hh), fun _ => h2.trans (hi.atOn (Or.inl hw))⟩
  · simp only [Option.some.injEq] at h
    subst h
    exact ⟨(by rintro (hh | hh) <;> cases hh), (by rintro (hh | hh) <;> cases hh)⟩
  · simp at h

theorem step_sig {w w' : World} {a : Action} (h : step w a = some w') (hi : SigInv w) :
    SigInv w' := by
  cases a with
  | caller tid outs =>
    obtain ⟨c, _, hm⟩ := step_caller_move h
    obtain ⟨hg, hw, _⟩ := hm.frame
    exact ⟨fun hh => by rw [hg]; exact hi.atMem (hw ▸ hh),
      fun hh => by rw [hg]; exact hi.atOn (hw ▸ hh)⟩
  | watcher openOuts readOuts pick => exact watcher_step_sig h hi
  | spurious tid =>
    obtain ⟨hg, hw, _⟩ := spurious_step_frame h
    exact ⟨fun hh => by rw [hg]; exact hi.atMem (hw ▸ hh),
      fun hh => by rw [hg]; exact hi.atOn (hw ▸ hh)⟩

theorem run_sig {w w' : World} {as : List Action} (h : run w as = some w')
    (hi : SigInv w) : SigInv w' := by
  induction as generalizing w with
  | nil =>
    simp only [run, Option.some.injEq] at h
    exact h ▸ hi
  | cons a as ih =>
    unfold run at h
    cases hs : step w a with
    | none => simp [hs] at h
    | some v =>
      simp only [hs] at h
      exact ih h (step_sig hs hi)

theorem boot_sig (r : InitResult) (ops : List Op) : SigInv (boot r ops) := by
  constructor <;>
  · intro hh
    simp only [boot] at hh
    rcases hh with hh | hh <;> split at hh <;> cases hh

/-- The first step of an enable or disable call: it makes its request, records
nothing else, and goes on according to the result and to the flag. -/
theorem step_start {w : World} {tid : Nat} {c : Call} {outs : List SysRet}
    {bytes : List Char} {ret : SysRet} {writes : List SysRet}
    (hc : w.calls[tid]? = some c) (hpc : c.pc = CallPc.start)
    (hreq : c.op.request outs = some (bytes, ret, writes)) :
    step w (Action.caller tid outs)
      = some ((w.log (Actor.caller tid)
          (writes.map (Event.sysWrite w.sPowerStatefd bytes))).setPc tid
            (afterRequest ret.ret w.wait_for_earlysuspend)) := by
  obtain ⟨op, pc⟩ := c
  simp only at hpc
  subst hpc
  cases op with
  | force_suspend t => simp [Op.request] at hreq
  | autosuspend_set_wakeup_callback => simp [Op.request] at hreq
  | autosuspend_earlysuspend_enable =>
    cases outs with
    | nil => simp [Op.request] at hreq
    | cons r rest =>
      simp only [Op.request, Option.some.injEq, Prod.mk.injEq] at hreq
      obtain ⟨rfl, rfl, rfl⟩ := hreq
      simp only [step, hc, autosuspend_earlysuspend_enable, afterRequest]
      have hb : pwr_state_mem.toList.take (strlen pwr_state_mem) = ['m', 'e', 'm'] := rfl
      rw [hb]
      by_cases h1 : r.ret < 0
      · simp [h1]
      · by_cases h2 : w.wait_for_earlysuspend = true
        · simp [h1, h2, World.log]
        · simp [h1, h2, World.log]
  | autosuspend_earlysuspend_disable =>
    cases hr : TEMP_FAILURE_RETRY outs with
    | none => simp [Op.request, hr] at hreq
    | some x =>
      obtain ⟨r, att⟩ := x
      simp only [Op.request, hr, Option.some.injEq, Prod.mk.injEq] at hreq
      obtain ⟨rfl, rfl, rfl⟩ := hreq
      simp only [step, hc, autosuspend_earlysuspend_disable, hr, afterRequest]
      have hb : pwr_state_on.toList.take (strlen pwr_state_on) = ['o', 'n'] := rfl
      rw [hb]
      by_cases h1 : r.ret < 0
      · simp [h1]
      · by_cases h2 : w.wait_for_earlysuspend = true
        · simp [h1, h2, World.log]
        · simp [h1, h2, World.log]

/-- A call that has returned stays returned. -/
theorem run_done {w w' : World} {as : List Action} {tid : Nat} {c : Call} {r : Int}
    (h : run w as = some w') (hc : w.calls[tid]? = some c) (hpc : c.pc = CallPc.done r) :
    w'.calls[tid]? = some c := by
  induction as generalizing w with
  | nil =>
    simp only [run, Option.some.injEq] at h
    subst h
    exact hc
  | cons a as ih =>
    unfold run at h
    cases hs : step w a with
    | none => simp [hs] at h
    | some v =>
      simp only [hs] at h
      apply ih h
      rcases step_call_cases hs hc with h1 | ⟨outs, _, hm⟩ | ⟨hw, _⟩
      · exact h1
      · cases hm with
        | stub pc' _ hs' _ => rw [hpc] at hs'; cases hs'
        | writeFail evs r' hs' _ _ => rw [hpc] at hs'; cases hs'
        | writeSync evs hs' _ _ => rw [hpc] at hs'; cases hs'
        | writeNoSync evs hs' _ _ => rw [hpc] at hs'; cases hs'
        | acquire hs' _ => rw [hpc] at hs'; rcases hs' with hs' | hs' <;> cases hs'
        | block t _ hs' _ => rw [hpc] at hs'; cases hs'
        | leave t _ hs' _ => rw [hpc] at hs'; cases hs'
        | release hs' => rw [hpc] at hs'; cases hs'
        | finish hs' => rw [hpc] at hs'; cases hs'
      · rw [hpc] at hw
        cases hw

/-- A call at `pthread_mutex_lock`, or woken inside `pthread_cond_wait`, takes
the mutex when it is free and comes to the loop test. -/
theorem step_acquire {w : World} {tid : Nat} {c : Call} {t : Phase} (outs : List SysRet)
    (hc : w.calls[tid]? = some c) (ht : c.op.target = some t)
    (hpc : c.pc = CallPc.lock ∨ c.pc = CallPc.reacquire) (hm : w.mutex = none) :
    step w (Action.caller tid outs)
      = some (({ w with mutex := some (Actor.caller tid) }.log (Actor.caller tid)
          [Event.lock]).setPc tid CallPc.check) := by
  obtain ⟨op, pc⟩ := c
  simp only at hpc ht
  cases op with
  | force_suspend x => cases ht
  | autosuspend_set_wakeup_callback => cases ht
  | autosuspend_earlysuspend_enable =>
    rcases hpc with rfl | rfl <;>
      simp [step, hc, autosuspend_earlysuspend_enable, pthread_mutex_lock, hm]
  | autosuspend_earlysuspend_disable =>
    rcases hpc with rfl | rfl <;>
      simp [step, hc, autosuspend_earlysuspend_disable, pthread_mutex_lock, hm]

/-- A call at the loop test leaves the loop when the phase is its target. -/
theorem step_leave {w : World} {tid : Nat} {c : Call} {t : Phase} (outs : List SysRet)
    (hc : w.calls[tid]? = some c) (ht : c.op.target = some t)
    (hpc : c.pc = CallPc.check) (hp : w.earlysuspend_state = t) :
    step w (Action.caller tid outs) = some (w.setPc tid CallPc.unlock) := by
  obtain ⟨op, pc⟩ := c
  simp only at hpc ht
  subst hpc
  cases op with
  | force_suspend x => cases ht
  | autosuspend_set_wakeup_callback => cases ht
  | autosuspend_earlysuspend_enable =>
    simp only [Op.target, Option.some.injEq] at ht
    subst ht
    simp [step, hc, autosuspend_earlysuspend_enable, hp]
  | autosuspend_earlysuspend_disable =>
    simp only [Op.target, Option.some.injEq] at ht
    subst ht
    simp [step, hc, autosuspend_earlysuspend_disable, hp]

/-- A call at the loop test blocks on the condition when the phase is not its
target. -/
theorem step_block {w : World} {tid : Nat} {c : Call} {t : Phase} (outs : List SysRet)
    (hc : w.calls[tid]? = some c) (ht : c.op.target = some t)
    (hpc : c.pc = CallPc.check) (hp : w.earlysuspend_state ≠ t) :
    step w (Action.caller tid outs) = some (pthread_cond_wait tid w) := by
  obtain ⟨op, pc⟩ := c
  simp only at hpc ht
  subst hpc
  cases op with
  | force_suspend x => cases ht
  | autosuspend_set_wakeup_callback => cases ht
  | autosuspend_earlysuspend_enable =>
    simp only [Op.target, Option.some.injEq] at ht
    subst ht
    simp [step, hc, autosuspend_earlysuspend_enable, hp]
  | autosuspend_earlysuspend_disable =>
    simp only [Op.target, Option.some.injEq] at ht
    subst ht
    simp [step, hc, autosuspend_earlysuspend_disable, hp]

/-- A call that has left the loop unlocks the mutex. -/
theorem step_release {w : World} {tid : Nat} {c : Call} {t : Phase} (outs : List SysRet)
    (hc : w.calls[tid]? = some c) (ht : c.op.target = some t) (hpc : c.pc = CallPc.unlock) :
    step w (Action.caller tid outs)
      = some ((pthread_mutex_unlock (Actor.caller tid) w).setPc tid CallPc.unlocked) := by
  obtain ⟨op, pc⟩ := c
  simp only at hpc ht
  subst hpc
  cases op with
  | force_suspend x => cases ht
  | autosuspend_set_wakeup_callback => cases ht
  | autosuspend_earlysuspend_enable => simp [step, hc, autosuspend_earlysuspend_enable]
  | autosuspend_earlysuspend_disable => simp [step, hc, autosuspend_earlysuspend_disable]

/-- A call that has unlocked the mutex returns 0. -/
theorem step_finish {w : World} {tid : Nat} {c : Call} {t : Phase} (outs : List SysRet)
    (hc : w.calls[tid]? = some c) (ht : c.op.target = some t) (hpc : c.pc = CallPc.unlocked) :
    step w (Action.caller tid outs) = some (w.setPc tid (CallPc.done 0)) := by
  obtain ⟨op, pc⟩ := c
  simp only at hpc ht
  subst hpc
  cases op with
  | force_suspend x => cases ht
  | autosuspend_set_wakeup_callback => cases ht
  | autosuspend_earlysuspend_enable => simp [step, hc, autosuspend_earlysuspend_enable]
  | autosuspend_earlysuspend_disable => simp [step, hc, autosuspend_earlysuspend_disable]

/-- Only a step of the watcher changes the phase. -/
theorem step_phase {w w' : World} {a : Action} (h : step w a = some w')
    (hne : w'.earlysuspend_state ≠ w.earlysuspend_state) :
    ∃ openOuts readOuts pick, a = Action.watcher openOuts readOuts pick := by
  cases a with
  | caller tid outs =>
    obtain ⟨c, _, hm⟩ := step_caller_move h
    obtain ⟨hg, _, _⟩ := hm.frame
    exact absurd (by rw [hg]) hne
  | watcher openOuts readOuts pick => exact ⟨_, _, _, rfl⟩
  | spurious tid =>
    obtain ⟨hg, _⟩ := spurious_step_frame h
    exact absurd (by rw [hg]) hne

theorem run_exited_phase {w w' : World} {as : List Action}
    (h : run w as = some w') (hx : w.watcher = WatcherPc.exited) :
    w'.watcher = WatcherPc.exited ∧ w'.earlysuspend_state = w.earlysuspend_state := by
  induction as generalizing w with
  | nil =>
    simp only [run, Option.some.injEq] at h
    subst h
    exact ⟨hx, rfl⟩
  | cons a as ih =>
    unfold run at h
    cases hs : step w a with
    | none => simp [hs] at h
    | some v =>
      simp only [hs] at h
      obtain ⟨hx1, hph1⟩ := step_exited hs hx
      obtain ⟨hx2, hph2⟩ := ih h hx1
      exact ⟨hx2, hph2.trans hph1⟩

/-- A failed notification read ends the watcher: `wait_for_fb_sleep` (for the
sleep file) or `wait_for_fb_wake` returns the negative result of the read. -/
theorem wait_for_fb_failed {openOuts readOuts : List SysRet} {fd rd : SysRet}
    {opens reads : List SysRet}
    (hopen : TEMP_FAILURE_RETRY openOuts = some (fd, opens))
    (hread : TEMP_FAILURE_RETRY (readOutcomes fd.ret readOuts) = some (rd, reads))
    (hneg : rd.ret < 0) :
    (∃ evs, wait_for_fb_sleep openOuts readOuts = some (rd.ret, evs))
      ∧ (∃ evs, wait_for_fb_wake openOuts readOuts = some (rd.ret, evs)) := by
  constructor
  · exact ⟨opens.map (Event.sysOpen Path.EARLYSUSPEND_WAIT_FOR_FB_SLEEP)
        ++ reads.map (Event.sysRead Path.EARLYSUSPEND_WAIT_FOR_FB_SLEEP fd.ret)
        ++ [Event.sysClose fd.ret],
      by simp [wait_for_fb_sleep, hopen, hread, hneg]⟩
  · exact ⟨opens.map (Event.sysOpen Path.EARLYSUSPEND_WAIT_FOR_FB_WAKE)
        ++ reads.map (Event.sysRead Path.EARLYSUSPEND_WAIT_FOR_FB_WAKE fd.ret)
        ++ [Event.sysClose fd.ret],
      by simp [wait_for_fb_wake, hopen, hread, hneg]⟩

/-- After the watcher has exited: it never moves again, the phase and the flag
are frozen, and a call waiting for another phase never returns 0. -/
theorem exited_forever {w w' : World} {as : List Action}
    (hx : w.watcher = WatcherPc.exited) (hrun : run w as = some w') :
    w'.watcher = WatcherPc.exited
      ∧ w'.earlysuspend_state = w.earlysuspend_state
      ∧ w'.wait_for_earlysuspend = w.wait_for_earlysuspend
      ∧ (∀ openOuts readOuts pick, step w' (Action.watcher openOuts readOuts pick) = none)
      ∧ (w.wait_for_earlysuspend = true →
          ∀ (tid : Nat) (c : Call) (t : Phase), w.calls[tid]? = some c →
            c.op.target = some t → w.earlysuspend_state ≠ t → c.pc.notReturnedZero = true →
            ∃ c', w'.calls[tid]? = some c' ∧ c'.pc.notReturnedZero = true
              ∧ (c.pc.pending = true → c'.pc.pending = true)) := by
  obtain ⟨h1, h2⟩ := run_exited_phase hrun hx
  refine ⟨h1, h2, (run_frame hrun).1, ?_, ?_⟩
  · intro openOuts readOuts pick
    simp [step, earlysuspend_thread_func, h1]
  · intro hsync tid c t hc ht hne hp
    obtain ⟨_, _, c', hc', _, hp', hpend⟩ := run_exited hrun hx hsync hc ht hp hne
    exact ⟨c', hc', hp', hpend⟩

/-- What the signal does to the calls: nothing when none waits; otherwise one
waiting call is woken and every other call is left where it is. -/
theorem pthread_cond_signal_calls (pick : Nat) (w : World) :
    ((∀ tid, w.pcOf tid ≠ some CallPc.waiting)
        ∧ (pthread_cond_signal Actor.watcher pick w).calls = w.calls)
      ∨ ∃ tid, w.pcOf tid = some CallPc.waiting
          ∧ (pthread_cond_signal Actor.watcher pick w).pcOf tid = some CallPc.reacquire
          ∧ ∀ tid', tid' ≠ tid →
              (pthread_cond_signal Actor.watcher pick w).calls[tid']? = w.calls[tid']? := by
  rcases pthread_cond_signal_cases Actor.watcher pick w with ⟨hnil, e⟩ | ⟨tid, c, hc, hpc, e⟩
  · left
    refine ⟨?_, by rw [e]; rfl⟩
    intro tid htid
    simp only [World.pcOf] at htid
    cases hc : w.calls[tid]? with
    | none => simp [hc] at htid
    | some c =>
      simp only [hc, Option.map_some', Option.some.injEq] at htid
      have := waitersFrom_mem (k := 0) hc htid
      rw [hnil] at this
      cases this
  · right
    refine ⟨tid, by simp [World.pcOf, hc, hpc], ?_, ?_⟩
    · rw [e]
      simp [World.pcOf, World.log, World.setPc, setPcAt_get hc]
    · intro tid' hne
      rw [e]
      simp [World.log, World.setPc, setPcAt_get_ne hne]

/-- Claim C4. `autosuspend_earlysuspend_init`: when the `open` of the control
file fails it returns `NULL` having made nothing but the `open` attempts; when
the baseline write fails it returns `NULL` having made the `open` attempts, the
write attempts and the `close`, and nothing else; in both cases
`wait_for_earlysuspend` and the watcher are left as they were. Whenever it
returns, the result is `NULL` exactly when the `open` or the write failed, and
otherwise it is the operation table; and it does return the table when both
succeed and the start-up code returns (a probe fails or the throw-away read
comes back). -/
theorem init_unavailable_iff (env : InitEnv) (s : InitState) :
    (∀ fd opens, TEMP_FAILURE_RETRY env.openState = some (fd, opens) → fd.ret < 0 →
      autosuspend_earlysuspend_init env s = some
        { ops := none,
          s := { g := { s.g with sPowerStatefd := fd.ret },
                 watcherStarted := s.watcherStarted,
                 trace := s.trace ++ opens.map
                   (fun o => (Actor.init, Event.sysOpen Path.EARLYSUSPEND_SYS_POWER_STATE o)) } })
    ∧ (∀ fd opens ret writes, TEMP_FAILURE_RETRY env.openState = some (fd, opens) →
        0 ≤ fd.ret → TEMP_FAILURE_RETRY env.writeOn = some (ret, writes) → ret.ret < 0 →
      autosuspend_earlysuspend_init env s = some
        { ops := none,
          s := { g := { s.g with sPowerStatefd := fd.ret },
                 watcherStarted := s.watcherStarted,
                 trace := s.trace
                   ++ opens.map
                     (fun o => (Actor.init, Event.sysOpen Path.EARLYSUSPEND_SYS_POWER_STATE o))
                   ++ writes.map (fun o => (Actor.init, Event.sysWrite fd.ret ['o', 'n'] o))
                   ++ [(Actor.init, Event.sysClose fd.ret)] } })
    ∧ (∀ r, autosuspend_earlysuspend_init env s = some r →
        (r.ops = none ↔
          ∃ fd opens, TEMP_FAILURE_RETRY env.openState = some (fd, opens) ∧
            (fd.ret < 0 ∨
              ∃ ret writes, TEMP_FAILURE_RETRY env.writeOn = some (ret, writes) ∧ ret.ret < 0))
        ∧ (r.ops = none ∨ r.ops = some autosuspend_earlysuspend_ops))
    ∧ (∀ fd opens ret writes, TEMP_FAILURE_RETRY env.openState = some (fd, opens) →
        0 ≤ fd.ret → TEMP_FAILURE_RETRY env.writeOn = some (ret, writes) → 0 ≤ ret.ret →
        (env.accessSleep.ret < 0 ∨ env.accessWake.ret < 0 ∨
          (wait_for_fb_wake env.openWake env.readWake).isSome) →
        ∃ s', autosuspend_earlysuspend_init env s
          = some { ops := some autosuspend_earlysuspend_ops, s := s' }) := by
  refine ⟨?_, ?_, ?_, ?_⟩
  · intro fd opens h1 hfd
    simp [autosuspend_earlysuspend_init, h1, hfd, InitState.log]
  · intro fd opens ret writes h1 hfd h2 hret
    simp [autosuspend_earlysuspend_init, h1, Int.not_lt.mpr hfd, h2, hret, InitState.log]
    rfl
  · intro r h
    cases h1 : TEMP_FAILURE_RETRY env.openState with
    | none => simp [autosuspend_earlysuspend_init, h1] at h
    | some x =>
      obtain ⟨fd, opens⟩ := x
      by_cases hfd : fd.ret < 0
      · simp [autosuspend_earlysuspend_init, h1, hfd] at h
        subst h
        simp [hfd]
      · cases h2 : TEMP_FAILURE_RETRY env.writeOn with
        | none => simp [autosuspend_earlysuspend_init, h1, hfd, h2] at h
        | some y =>
          obtain ⟨ret, writes⟩ := y
          by_cases hret : ret.ret < 0
          · simp [autosuspend_earlysuspend_init, h1, hfd, h2, hret] at h
            subst h
            simp [hfd, hret]
          · cases h3 : start_earlysuspend_thread env
                (({ s with g := { s.g with sPowerStatefd := fd.ret } } : InitState).log
                    (opens.map (Event.sysOpen Path.EARLYSUSPEND_SYS_POWER_STATE))
                  |>.log (writes.map (Event.sysWrite fd.ret ("on".toList.take 2)))) with
            | none => simp [autosuspend_earlysuspend_init, h1, hfd, h2, hret, InitState.log] at h3 h
                      simp [h3] at h
            | some s' =>
              simp [autosuspend_earlysuspend_init, h1, hfd, h2, hret, InitState.log] at h3 h
              simp [h3] at h
              subst h
              simp [hfd, hret]
  · intro fd opens ret writes h1 hfd h2 hret h3
    simp only [autosuspend_earlysuspend_init, h1, Int.not_lt.mpr hfd, h2, Int.not_lt.mpr hret,
      if_false]
    rcases h3 with h3 | h3 | h3
    · simp [start_earlysuspend_thread, h3]
    · by_cases h4 : env.accessSleep.ret < 0
      · simp [start_earlysuspend_thread, h4]
      · simp [start_earlysuspend_thread, h3, h4]
    · by_cases h4 : env.accessSleep.ret < 0
      · simp [start_earlysuspend_thread, h4]
      · by_cases h5 : env.accessWake.ret < 0
        · simp [start_earlysuspend_thread, h4, h5]
        · obtain ⟨z, hz⟩ := Option.isSome_iff_exists.mp h3
          by_cases h6 : env.threadCreate = 0
          · simp [start_earlysuspend_thread, h4, h5, hz, h6]
          · simp [start_earlysuspend_thread, h4, h5, hz, h6]

/-- Claim C1 as stated fails: `return 0` (line 105) comes after
`pthread_mutex_unlock` (line 100), and in between the watcher can assign the
phase. An enable call, synchronized waiting on, finds the phase `MEM`, leaves
its loop and unlocks; the watcher then reads the wake notification and assigns
`ON`; the call returns 0 at a moment when the phase is `ON`. -/
theorem enable_returns_after_phase_changed :
    run (boot initSync [Op.autosuspend_earlysuspend_enable]) schedReturnRace
        = some worldReturnRace
    ∧ worldReturnRace.wait_for_earlysuspend = true
    ∧ worldReturnRace.pcOf 0 = some CallPc.unlocked
    ∧ worldReturnRace.earlysuspend_state = Phase.EARLYSUSPEND_ON
    ∧ (step worldReturnRace (Action.caller 0 [])).map
        (fun w => (w.pcOf 0, w.earlysuspend_state))
        = some (some (CallPc.done 0), Phase.EARLYSUSPEND_ON) := by
  refine ⟨rfl, rfl, rfl, rfl, rfl⟩

/-- Claim C1, amended. With `wait_for_earlysuspend` set, in every world
reachable after initialisation and for every enable (disable) call: the step
that takes the call past its `pthread_mutex_unlock` (line 100 / 130) is that
unlock, taken while the phase is `MEM` (`ON`), its target, and leaving it so;
a call that has left its loop and not yet unlocked owns the mutex and the phase
is its target; the step that makes the call return 0 is its `return 0`, taken
after that unlock, and changes nothing else; at the loop test with another
phase the call blocks in `pthread_cond_wait`, and with the target phase its
next three steps unlock and return 0; a blocked call can only be woken, and a
woken call can only take the mutex and come back to the loop test; and along
every schedule during which the phase differs from the target the call stays
in the loop. -/
theorem enable_disable_unlock_only_at_target
    (r : InitResult) (ops : List Op) (as : List Action) (w : World)
    (hrun : run (boot r ops) as = some w) (hsync : w.wait_for_earlysuspend = true)
    (tid : Nat) (c : Call) (t : Phase)
    (hc : w.calls[tid]? = some c) (ht : c.op.target = some t) :
    (∀ a w', step w a = some w' → c.pc ≠ CallPc.unlocked →
        w'.pcOf tid = some CallPc.unlocked →
        w.earlysuspend_state = t ∧ w'.earlysuspend_state = t ∧ c.pc = CallPc.unlock)
    ∧ (c.pc = CallPc.unlock →
        w.earlysuspend_state = t ∧ w.mutex = some (Actor.caller tid))
    ∧ (∀ a w', step w a = some w' → c.pc ≠ CallPc.done 0 →
        w'.pcOf tid = some (CallPc.done 0) →
        c.pc = CallPc.unlocked ∧ w'.toGlobals = w.toGlobals ∧ w'.mutex = w.mutex
          ∧ w'.trace = w.trace)
    ∧ (∀ outs, c.pc = CallPc.check → w.earlysuspend_state ≠ t →
        ∃ w', step w (Action.caller tid outs) = some w'
          ∧ w'.pcOf tid = some CallPc.waiting)
    ∧ (∀ outs, c.pc = CallPc.check → w.earlysuspend_state = t →
        ∃ w1 w2 w3, step w (Action.caller tid outs) = some w1
          ∧ step w1 (Action.caller tid outs) = some w2
          ∧ step w2 (Action.caller tid outs) = some w3
          ∧ w2.pcOf tid = some CallPc.unlocked ∧ w2.earlysuspend_state = t
          ∧ w3.pcOf tid = some (CallPc.done 0) ∧ w3.earlysuspend_state = t)
    ∧ (∀ a w', step w a = some w' → c.pc = CallPc.waiting →
        w'.pcOf tid = some CallPc.waiting ∨ w'.pcOf tid = some CallPc.reacquire)
    ∧ (∀ a w', step w a = some w' → c.pc = CallPc.reacquire →
        w'.pcOf tid = some CallPc.reacquire ∨ w'.pcOf tid = some CallPc.check)
    ∧ (∀ bs w', c.pc.pending = true →
        runWhile (fun v => decide (v.earlysuspend_state ≠ t)) w bs = some w' →
        ∃ c', w'.calls[tid]? = some c' ∧ c'.pc.pending = true) := by
  have hi : Inv w := run_inv hrun (boot_inv r ops)
  refine ⟨?_, ?_, ?_, ?_, ?_, ?_, ?_, ?_⟩
  · intro a w' hs hnd hd
    exact step_unlocks hi hs hc ht hnd hd
  · intro hpc
    have h1 := hi.exitOk tid c hc hpc
    rw [ht] at h1
    cases h1
    exact ⟨rfl, hi.callerOwns tid c hc (by rw [hpc]; rfl)⟩
  · intro a w' hs hnd hd
    exact step_return_zero hsync hs hc ht hnd hd
  · intro outs hpc hne
    refine ⟨pthread_cond_wait tid w, step_block outs hc ht hpc hne, ?_⟩
    simp [World.pcOf, pthread_cond_wait, World.setPc, World.log, setPcAt_get hc]
  · intro outs hpc hp
    obtain ⟨w1, hw1, h1⟩ : ∃ w1, w1 = w.setPc tid CallPc.unlock
        ∧ step w (Action.caller tid outs) = some w1 :=
      ⟨_, rfl, step_leave outs hc ht hpc hp⟩
    have hc1 : w1.calls[tid]? = some { c with pc := CallPc.unlock } := by
      rw [hw1]
      simp [World.setPc, setPcAt_get hc]
    obtain ⟨w2, hw2, h2⟩ : ∃ w2, w2 = (pthread_mutex_unlock (Actor.caller tid) w1).setPc tid
        CallPc.unlocked ∧ step w1 (Action.caller tid outs) = some w2 :=
      ⟨_, rfl, step_release outs hc1 ht rfl⟩
    have hc2 : w2.calls[tid]? = some { c with pc := CallPc.unlocked } := by
      rw [hw2]
      simp [pthread_mutex_unlock, World.setPc, World.log, setPcAt_get hc1]
    have hp2 : w2.earlysuspend_state = t := by rw [hw2, ← hp, hw1]; rfl
    obtain ⟨w3, hw3, h3⟩ : ∃ w3, w3 = w2.setPc tid (CallPc.done 0)
        ∧ step w2 (Action.caller tid outs) = some w3 :=
      ⟨_, rfl, step_finish outs hc2 ht rfl⟩
    refine ⟨w1, w2, w3, h1, h2, h3, by simp [World.pcOf, hc2], hp2, ?_, ?_⟩
    · rw [hw3]
      simp [World.pcOf, World.setPc, setPcAt_get hc2]
    · rw [hw3, ← hp2]
      rfl
  · intro a w' hs hpc
    rcases step_call_cases hs hc with h1 | ⟨outs, _, hm⟩ | ⟨_, h1⟩
    · left
      simp [World.pcOf, h1, hpc]
    · cases hm with
      | stub pc' _ hs' _ => rw [hpc] at hs'; cases hs'
      | writeFail evs r' hs' _ _ => rw [hpc] at hs'; cases hs'
      | writeSync evs hs' _ _ => rw [hpc] at hs'; cases hs'
      | writeNoSync evs hs' _ _ => rw [hpc] at hs'; cases hs'
      | acquire hs' _ => rw [hpc] at hs'; rcases hs' with hs' | hs' <;> cases hs'
      | block t' _ hs' _ => rw [hpc] at hs'; cases hs'
      | leave t' _ hs' _ => rw [hpc] at hs'; cases hs'
      | release hs' => rw [hpc] at hs'; cases hs'
      | finish hs' => rw [hpc] at hs'; cases hs'
    · right
      simp [World.pcOf, h1]
  · intro a w' hs hpc
    rcases step_call_cases hs hc with h1 | ⟨outs, _, hm⟩ | ⟨hw, _⟩
    · left
      simp [World.pcOf, h1, hpc]
    · cases hm with
      | stub pc' _ hs' _ => rw [hpc] at hs'; cases hs'
      | writeFail evs r' hs' _ _ => rw [hpc] at hs'; cases hs'
      | writeSync evs hs' _ _ => rw [hpc] at hs'; cases hs'
      | writeNoSync evs hs' _ _ => rw [hpc] at hs'; cases hs'
      | acquire _ _ =>
        right
        simp [World.pcOf, World.setPc, World.log, setPcAt_get hc]
      | block t' _ hs' _ => rw [hpc] at hs'; cases hs'
      | leave t' _ hs' _ => rw [hpc] at hs'; cases hs'
      | release hs' => rw [hpc] at hs'; cases hs'
      | finish hs' => rw [hpc] at hs'; cases hs'
    · rw [hpc] at hw
      cases hw
  · intro bs w' hp hrw
    obtain ⟨c', hc', _, hp'⟩ := runWhile_pending hrw hc ht hp
    exact ⟨c', hc', hp'⟩

/-- Witness for the amended C1: an enable call blocked on the condition after
a successful write, the phase being `ON`. -/
theorem enable_disable_unlock_only_at_target_witness :
    run (boot initSync [Op.autosuspend_earlysuspend_enable]) schedEnableBlocks
        = some worldEnableBlocked
    ∧ worldEnableBlocked.wait_for_earlysuspend = true
    ∧ worldEnableBlocked.calls[0]?
        = some { op := Op.autosuspend_earlysuspend_enable, pc := CallPc.waiting }
    ∧ (∀ bs w', CallPc.waiting.pending = true →
        runWhile (fun v => decide (v.earlysuspend_state ≠ Phase.EARLYSUSPEND_MEM))
          worldEnableBlocked bs = some w' →
        ∃ c', w'.calls[0]? = some c' ∧ c'.pc.pending = true) :=
  ⟨rfl, rfl, rfl,
    (enable_disable_unlock_only_at_target initSync [Op.autosuspend_earlysuspend_enable]
      schedEnableBlocks worldEnableBlocked rfl rfl 0
      { op := Op.autosuspend_earlysuspend_enable, pc := CallPc.waiting }
      Phase.EARLYSUSPEND_MEM rfl rfl).2.2.2.2.2.2.2⟩

/-- Witness for C4: the control file cannot be opened (`envNoOpen`), and the
baseline write fails (`envNoWrite`). -/
theorem init_unavailable_iff_witness :
    autosuspend_earlysuspend_init envNoOpen InitState.initial = some
        { ops := none,
          s := { g := { sPowerStatefd := -1, wait_for_earlysuspend := false,
                        earlysuspend_state := Phase.EARLYSUSPEND_ON },
                 watcherStarted := false,
                 trace := [(Actor.init, Event.sysOpen Path.EARLYSUSPEND_SYS_POWER_STATE
                              { ret := -1, errno := 2 })] } }
    ∧ autosuspend_earlysuspend_init envNoWrite InitState.initial = some
        { ops := none,
          s := { g := { sPowerStatefd := 3, wait_for_earlysuspend := false,
                        earlysuspend_state := Phase.EARLYSUSPEND_ON },
                 watcherStarted := false,
                 trace := [(Actor.init, Event.sysOpen Path.EARLYSUSPEND_SYS_POWER_STATE
                              { ret := 3, errno := 0 }),
                           (Actor.init, Event.sysWrite 3 ['o', 'n'] failed),
                           (Actor.init, Event.sysClose 3)] } } :=
  ⟨(init_unavailable_iff envNoOpen InitState.initial).1
      { ret := -1, errno := 2 } [{ ret := -1, errno := 2 }] rfl (by decide),
   (init_unavailable_iff envNoWrite InitState.initial).2.1
      { ret := 3, errno := 0 } [{ ret := 3, errno := 0 }] failed [failed] rfl (by decide) rfl
      (by decide)⟩

/-- Claim C2. For an enable or disable call in any world: when the write on
entry fails, with the negative result `ret` (for disable, the result left by
`TEMP_FAILURE_RETRY`), the same step returns `ret`, records nothing but the
attempts of the write, and leaves the globals (phase, flag, descriptor), the
mutex and the watcher as they were, and the call stays returned ever after, so
it never takes the mutex nor waits; when the write succeeds, whatever value it
returned, the call can only ever return 0, and returns 0 at once when
`wait_for_earlysuspend` is not set. -/
theorem write_failure_returns_error (w : World) (tid : Nat) (c : Call) (outs : List SysRet)
    (bytes : List Char) (ret : SysRet) (writes : List SysRet)
    (hc : w.calls[tid]? = some c) (hpc : c.pc = CallPc.start)
    (hreq : c.op.request outs = some (bytes, ret, writes)) :
    ∃ w', step w (Action.caller tid outs) = some w'
      ∧ (ret.ret < 0 →
          w'.pcOf tid = some (CallPc.done ret.ret)
          ∧ w'.toGlobals = w.toGlobals ∧ w'.mutex = w.mutex ∧ w'.watcher = w.watcher
          ∧ w'.trace = w.trace ++ writes.map
              (fun o => (Actor.caller tid, Event.sysWrite w.sPowerStatefd bytes o))
          ∧ ∀ as w'', run w' as = some w'' → w''.pcOf tid = some (CallPc.done ret.ret))
      ∧ (0 ≤ ret.ret →
          (w.wait_for_earlysuspend = false → w'.pcOf tid = some (CallPc.done 0))
          ∧ ∀ as w'' r, run w' as = some w'' → w''.pcOf tid = some (CallPc.done r) → r = 0) := by
  refine ⟨_, step_start hc hpc hreq, ?_, ?_⟩
  · intro hneg
    have hget : ((w.log (Actor.caller tid)
        (writes.map (Event.sysWrite w.sPowerStatefd bytes))).setPc tid
          (afterRequest ret.ret w.wait_for_earlysuspend)).calls[tid]?
        = some { c with pc := CallPc.done ret.ret } := by
      simp [World.setPc, World.log, setPcAt_get hc, afterRequest, hneg]
    refine ⟨by simp [World.pcOf, hget], rfl, rfl, rfl, ?_, ?_⟩
    · simp [World.setPc, World.log]
    · intro as w'' hrun
      have := run_done hrun hget rfl
      simp [World.pcOf, this]
  · intro hpos
    have hnn : ¬ ret.ret < 0 := Int.not_lt.mpr hpos
    refine ⟨?_, ?_⟩
    · intro hf
      simp [World.pcOf, World.setPc, World.log, setPcAt_get hc, afterRequest, hnn, hf]
    · intro as w'' r hrun hd
      have hget : ((w.log (Actor.caller tid)
          (writes.map (Event.sysWrite w.sPowerStatefd bytes))).setPc tid
            (afterRequest ret.ret w.wait_for_earlysuspend)).calls[tid]?
          = some { c with pc := afterRequest ret.ret w.wait_for_earlysuspend } := by
        simp [World.setPc, World.log, setPcAt_get hc]
      have haw : (afterRequest ret.ret w.wait_for_earlysuspend).afterWrite = true := by
        unfold afterRequest
        rw [if_neg hnn]
        split <;> rfl
      obtain ⟨c', hc', _, hp'⟩ := run_afterWrite hrun hget haw
      simp only [World.pcOf, hc', Option.map_some', Option.some.injEq] at hd
      rw [hd] at hp'
      simpa [CallPc.afterWrite] using hp'

/-- Witness for C2: a disable call whose write fails with `EIO` after one
interruption, right after initialisation. -/
theorem write_failure_returns_error_witness :
    ∃ w', step (boot initSync [Op.autosuspend_earlysuspend_disable])
        (Action.caller 0 [interrupted, failed]) = some w'
      ∧ (failed.ret < 0 →
          w'.pcOf 0 = some (CallPc.done failed.ret)
          ∧ w'.toGlobals = (boot initSync [Op.autosuspend_earlysuspend_disable]).toGlobals
          ∧ w'.mutex = (boot initSync [Op.autosuspend_earlysuspend_disable]).mutex
          ∧ w'.watcher = (boot initSync [Op.autosuspend_earlysuspend_disable]).watcher
          ∧ w'.trace = (boot initSync [Op.autosuspend_earlysuspend_disable]).trace
              ++ [interrupted, failed].map (fun o => (Actor.caller 0,
                    Event.sysWrite
                      (boot initSync [Op.autosuspend_earlysuspend_disable]).sPowerStatefd
                      ['o', 'n'] o))
          ∧ ∀ as w'', run w' as = some w'' → w''.pcOf 0 = some (CallPc.done failed.ret))
      ∧ (0 ≤ failed.ret →
          ((boot initSync [Op.autosuspend_earlysuspend_disable]).wait_for_earlysuspend = false →
            w'.pcOf 0 = some (CallPc.done 0))
          ∧ ∀ as w'' r, run w' as = some w'' → w''.pcOf 0 = some (CallPc.done r) → r = 0) :=
  write_failure_returns_error (boot initSync [Op.autosuspend_earlysuspend_disable]) 0
    { op := Op.autosuspend_earlysuspend_disable, pc := CallPc.start } [interrupted, failed]
    ['o', 'n'] failed [interrupted, failed] rfl rfl rfl

/-- Claim C3. An enable (disable) call entered while the phase already is `MEM`
(`ON`) and whose write succeeds: with `wait_for_earlysuspend` set and the mutex
free, its own five steps (write, lock, loop test, unlock, return), with no step
of the watcher and no wake-up, make it return 0, recording the write, one lock and one
unlock and no wait on the condition, and leave the phase as it was; with the
flag not set its first step returns 0; and along every schedule during which
the phase stays at the target the call is never inside `pthread_cond_wait`. -/
theorem repeated_call_returns_without_wait (w : World) (tid : Nat) (c : Call) (t : Phase)
    (outs : List SysRet) (bytes : List Char) (ret : SysRet) (writes : List SysRet)
    (hc : w.calls[tid]? = some c) (hpc : c.pc = CallPc.start)
    (ht : c.op.target = some t) (hphase : w.earlysuspend_state = t)
    (hreq : c.op.request outs = some (bytes, ret, writes)) (hret : 0 ≤ ret.ret) :
    (w.wait_for_earlysuspend = true → w.mutex = none →
      ∃ w', run w [Action.caller tid outs, Action.caller tid [], Action.caller tid [],
                   Action.caller tid [], Action.caller tid []] = some w'
        ∧ w'.pcOf tid = some (CallPc.done 0) ∧ w'.earlysuspend_state = t
        ∧ w'.trace = w.trace
            ++ writes.map (fun o => (Actor.caller tid, Event.sysWrite w.sPowerStatefd bytes o))
            ++ [(Actor.caller tid, Event.lock), (Actor.caller tid, Event.unlock)])
    ∧ (w.wait_for_earlysuspend = false →
      ∃ w', step w (Action.caller tid outs) = some w'
        ∧ w'.pcOf tid = some (CallPc.done 0) ∧ w'.earlysuspend_state = t
        ∧ w'.trace = w.trace
            ++ writes.map (fun o => (Actor.caller tid, Event.sysWrite w.sPowerStatefd bytes o)))
    ∧ (∀ bs w', runWhile (fun v => decide (v.earlysuspend_state = t)) w bs = some w' →
        ∃ c', w'.calls[tid]? = some c' ∧ c'.pc.outsideWait = true) := by
  have hnn : ¬ ret.ret < 0 := Int.not_lt.mpr hret
  have h1 := step_start hc hpc hreq
  refine ⟨?_, ?_, ?_⟩
  · intro hs hm
    simp only [afterRequest, hnn, hs, if_false, if_true] at h1
    obtain ⟨w1, hw1, h1⟩ : ∃ w1, w1 = (w.log (Actor.caller tid)
        (writes.map (Event.sysWrite w.sPowerStatefd bytes))).setPc tid CallPc.lock
        ∧ step w (Action.caller tid outs) = some w1 := ⟨_, rfl, h1⟩
    have hc1 : w1.calls[tid]? = some { c with pc := CallPc.lock } := by
      rw [hw1]
      simp [World.setPc, World.log, setPcAt_get hc]
    have hm1 : w1.mutex = none := by rw [hw1]; exact hm
    obtain ⟨w2, hw2, h2⟩ : ∃ w2, w2 = ({ w1 with mutex := some (Actor.caller tid) }.log
        (Actor.caller tid) [Event.lock]).setPc tid CallPc.check
        ∧ step w1 (Action.caller tid []) = some w2 :=
      ⟨_, rfl, step_acquire [] hc1 ht (Or.inl rfl) hm1⟩
    have hc2 : w2.calls[tid]? = some { c with pc := CallPc.check } := by
      rw [hw2]
      simp [World.setPc, World.log, setPcAt_get hc1]
    have hp2 : w2.earlysuspend_state = t := by rw [hw2, ← hphase, hw1]; rfl
    obtain ⟨w3, hw3, h3⟩ : ∃ w3, w3 = w2.setPc tid CallPc.unlock
        ∧ step w2 (Action.caller tid []) = some w3 :=
      ⟨_, rfl, step_leave [] hc2 ht rfl hp2⟩
    have hc3 : w3.calls[tid]? = some { c with pc := CallPc.unlock } := by
      rw [hw3]
      simp [World.setPc, setPcAt_get hc2]
    obtain ⟨w4, hw4, h4⟩ : ∃ w4, w4 = (pthread_mutex_unlock (Actor.caller tid) w3).setPc tid
        CallPc.unlocked ∧ step w3 (Action.caller tid []) = some w4 :=
      ⟨_, rfl, step_release [] hc3 ht rfl⟩
    have hc4 : w4.calls[tid]? = some { c with pc := CallPc.unlocked } := by
      rw [hw4]
      simp [pthread_mutex_unlock, World.setPc, World.log, setPcAt_get hc3]
    obtain ⟨w5, hw5, h5⟩ : ∃ w5, w5 = w4.setPc tid (CallPc.done 0)
        ∧ step w4 (Action.caller tid []) = some w5 :=
      ⟨_, rfl, step_finish [] hc4 ht rfl⟩
    refine ⟨w5, by simp only [run, h1, h2, h3, h4, h5], ?_, ?_, ?_⟩
    · rw [hw5]
      simp [World.pcOf, World.setPc, setPcAt_get hc4]
    · rw [hw5, hw4, ← hp2, hw3]
      rfl
    · rw [hw5, hw4, hw3, hw2, hw1]
      simp [pthread_mutex_unlock, World.setPc, World.log, List.map_map]
  · intro hs
    refine ⟨_, h1, ?_, hphase, ?_⟩
    · simp [World.pcOf, World.setPc, World.log, setPcAt_get hc, afterRequest, hnn, hs]
    · simp [World.setPc, World.log, List.map_map]
  · intro bs w' hrw
    obtain ⟨c', hc', _, hp'⟩ := runWhile_outsideWait hrw hc ht (by rw [hpc]; rfl)
    exact ⟨c', hc', hp'⟩

/-- Witness for C3: a second enable call entered after a first one has
completed, the phase still being `MEM`. -/
theorem repeated_call_returns_without_wait_witness :
    worldEnabled.pcOf 0 = some (CallPc.done 0)
    ∧ worldEnabled.calls[1]?
        = some { op := Op.autosuspend_earlysuspend_enable, pc := CallPc.start }
    ∧ worldEnabled.earlysuspend_state = Phase.EARLYSUSPEND_MEM
    ∧ worldEnabled.wait_for_earlysuspend = true
    ∧ ∃ w', run worldEnabled [Action.caller 1 [wrote], Action.caller 1 [], Action.caller 1 [],
                   Action.caller 1 [], Action.caller 1 []] = some w'
        ∧ w'.pcOf 1 = some (CallPc.done 0)
        ∧ w'.earlysuspend_state = Phase.EARLYSUSPEND_MEM
        ∧ w'.trace = worldEnabled.trace
            ++ [wrote].map (fun o => (Actor.caller 1,
                  Event.sysWrite worldEnabled.sPowerStatefd ['m', 'e', 'm'] o))
            ++ [(Actor.caller 1, Event.lock), (Actor.caller 1, Event.unlock)] :=
  ⟨rfl, rfl, rfl, rfl,
    (repeated_call_returns_without_wait worldEnabled 1
      { op := Op.autosuspend_earlysuspend_enable, pc := CallPc.start }
      Phase.EARLYSUSPEND_MEM [wrote] ['m', 'e', 'm'] wrote [wrote] rfl rfl rfl rfl rfl
      (by decide)).1 rfl rfl⟩

/-- Claim C5. After `autosuspend_earlysuspend_init` has returned,
`wait_for_earlysuspend` is set exactly when both `access` probes were made and
passed and `pthread_create` returned 0 (equivalently: the table was returned,
both probes passed and the thread was created), and exactly when the watcher
was started; when the table is not returned or a probe fails, the watcher is
not started and the trace holds neither a `read` nor a `pthread_create`. The
flag never changes afterwards, and in any world where it is not set (whatever
the phase, the mutex and the watcher) an enable or disable call whose write
succeeds returns 0 in that same step, recording only the write. -/
theorem sync_enabled_iff (env : InitEnv) (r : InitResult)
    (hinit : autosuspend_earlysuspend_init env InitState.initial = some r) :
    (r.s.g.wait_for_earlysuspend = true ↔
      ((∃ a, (Actor.init, Event.sysAccess Path.EARLYSUSPEND_WAIT_FOR_FB_SLEEP a) ∈ r.s.trace
          ∧ 0 ≤ a.ret)
        ∧ (∃ b, (Actor.init, Event.sysAccess Path.EARLYSUSPEND_WAIT_FOR_FB_WAKE b) ∈ r.s.trace
          ∧ 0 ≤ b.ret)
        ∧ (Actor.init, Event.threadCreate 0) ∈ r.s.trace))
    ∧ (r.s.g.wait_for_earlysuspend = true ↔
        (r.ops ≠ none ∧ 0 ≤ env.accessSleep.ret ∧ 0 ≤ env.accessWake.ret
          ∧ env.threadCreate = 0))
    ∧ r.s.watcherStarted = r.s.g.wait_for_earlysuspend
    ∧ ((r.ops = none ∨ env.accessSleep.ret < 0 ∨ env.accessWake.ret < 0) →
        r.s.watcherStarted = false ∧
        ∀ x ∈ r.s.trace, x.2.isRead = false ∧ x.2.isThreadCreate = false)
    ∧ (∀ ops as w, run (boot r ops) as = some w →
        w.wait_for_earlysuspend = r.s.g.wait_for_earlysuspend)
    ∧ (∀ (w : World) (tid : Nat) (c : Call) (outs : List SysRet) (bytes : List Char)
        (ret : SysRet) (writes : List SysRet),
        w.wait_for_earlysuspend = false → w.calls[tid]? = some c → c.pc = CallPc.start →
        c.op.request outs = some (bytes, ret, writes) → 0 ≤ ret.ret →
        ∃ w', step w (Action.caller tid outs) = some w'
          ∧ w'.pcOf tid = some (CallPc.done 0)
          ∧ w'.mutex = w.mutex ∧ w'.toGlobals = w.toGlobals
          ∧ w'.trace = w.trace ++ writes.map
              (fun o => (Actor.caller tid, Event.sysWrite w.sPowerStatefd bytes o))) := by
  obtain ⟨h1, h2, h3, h4⟩ := init_sync_iff env r hinit
  refine ⟨h1, h2, h3, h4, ?_, ?_⟩
  · intro ops as w hrun
    exact (run_frame hrun).1
  · intro w tid c outs bytes ret writes hf hc hpc hreq hret
    have hnn : ¬ ret.ret < 0 := Int.not_lt.mpr hret
    refine ⟨_, step_start hc hpc hreq, ?_, rfl, rfl, ?_⟩
    · simp [World.pcOf, World.setPc, World.log, setPcAt_get hc, afterRequest, hnn, hf]
    · simp [World.setPc, World.log, List.map_map]

/-- Witness for C5: the wake notification file is missing (`envNoWake`). -/
theorem sync_enabled_iff_witness :
    autosuspend_earlysuspend_init envNoWake InitState.initial = some initNoWake
    ∧ initNoWake.s.g.wait_for_earlysuspend = false
    ∧ initNoWake.s.watcherStarted = initNoWake.s.g.wait_for_earlysuspend
    ∧ (initNoWake.s.g.wait_for_earlysuspend = true ↔
        (initNoWake.ops ≠ none ∧ 0 ≤ envNoWake.accessSleep.ret ∧ 0 ≤ envNoWake.accessWake.ret
          ∧ envNoWake.threadCreate = 0)) :=
  ⟨rfl, rfl, (sync_enabled_iff envNoWake initNoWake rfl).2.2.1,
    (sync_enabled_iff envNoWake initNoWake rfl).2.1⟩

/-- Claim C6, evaluated at the failing input: with a write that is interrupted
once (`EINTR`) and then succeeds, the enable call returns `-1` (line 88 makes a
single attempt), while the disable call, given the same outcomes, retries and
returns 0 (line 118), the flag not being set. -/
theorem enable_surfaces_interruption :
    (run (boot initNoWake
        [Op.autosuspend_earlysuspend_enable, Op.autosuspend_earlysuspend_disable])
      schedInterrupted).map (fun w => (w.pcOf 0, w.pcOf 1, w.trace.drop initNoWake.s.trace.length))
      = some (some (CallPc.done (-1)), some (CallPc.done 0),
          [(Actor.caller 0, Event.sysWrite 3 ['m', 'e', 'm'] interrupted),
           (Actor.caller 1, Event.sysWrite 3 ['o', 'n'] interrupted),
           (Actor.caller 1, Event.sysWrite 3 ['o', 'n'] wrote)]) := by
  rfl

/-- Claim C8. A `force_suspend` call, whatever its `timeout_ms`, returns 0 in
its single step, records nothing (no system call, no lock), and leaves the
globals (phase, `wait_for_earlysuspend`, `sPowerStatefd`), the mutex, the
watcher and every other call as they were. -/
theorem force_suspend_no_effect (w : World) (tid : Nat) (timeout_ms : Int)
    (outs : List SysRet)
    (hc : w.calls[tid]? = some { op := Op.force_suspend timeout_ms, pc := CallPc.start }) :
    ∃ w', step w (Action.caller tid outs) = some w'
      ∧ w'.pcOf tid = some (CallPc.done 0)
      ∧ w'.toGlobals = w.toGlobals ∧ w'.mutex = w.mutex ∧ w'.watcher = w.watcher
      ∧ w'.trace = w.trace
      ∧ ∀ tid', tid' ≠ tid → w'.calls[tid']? = w.calls[tid']? := by
  refine ⟨w.setPc tid (CallPc.done 0), ?_, ?_, rfl, rfl, rfl, rfl, ?_⟩
  · simp [step, hc, force_suspend]
  · simp [World.pcOf, World.setPc, setPcAt_get hc]
  · intro tid' hne
    simp [World.setPc, setPcAt_get_ne hne]

/-- Witness for C8: `force_suspend(-5)` right after initialisation. -/
theorem force_suspend_no_effect_witness :
    ∃ w', step (boot initSync [Op.force_suspend (-5)]) (Action.caller 0 []) = some w'
      ∧ w'.pcOf 0 = some (CallPc.done 0)
      ∧ w'.toGlobals = (boot initSync [Op.force_suspend (-5)]).toGlobals
      ∧ w'.mutex = (boot initSync [Op.force_suspend (-5)]).mutex
      ∧ w'.watcher = (boot initSync [Op.force_suspend (-5)]).watcher
      ∧ w'.trace = (boot initSync [Op.force_suspend (-5)]).trace
      ∧ ∀ tid', tid' ≠ 0 → w'.calls[tid']? = (boot initSync [Op.force_suspend (-5)]).calls[tid']? :=
  force_suspend_no_effect (boot initSync [Op.force_suspend (-5)]) 0 (-5) [] rfl

/-- Claim C7. In every world reachable after initialisation: initialisation
left the phase at `EARLYSUSPEND_ON`; the history of the trace (the outcomes of
the notification reads of the watcher and the assignments to the phase by
anybody) is a beginning of: sleep read succeeds, watcher assigns `MEM`, wake
read succeeds, watcher assigns `ON`, and so on, possibly ended by one failed
read of the file that was due; the phase is the last value assigned (`ON` when
none was); and a step that changes the phase is a step of the watcher. -/
theorem phase_alternates (env : InitEnv) (r : InitResult) (ops : List Op)
    (as : List Action) (w : World)
    (hinit : autosuspend_earlysuspend_init env InitState.initial = some r)
    (hrun : run (boot r ops) as = some w) :
    r.s.g.earlysuspend_state = Phase.EARLYSUSPEND_ON
    ∧ (∃ n, history w.trace = ideal n
        ∨ (n % 4 = 0 ∧
            history w.trace = ideal n ++ [Obs.readFail Path.EARLYSUSPEND_WAIT_FOR_FB_SLEEP])
        ∨ (n % 4 = 2 ∧
            history w.trace = ideal n ++ [Obs.readFail Path.EARLYSUSPEND_WAIT_FOR_FB_WAKE]))
    ∧ w.earlysuspend_state = phaseAfter (history w.trace)
    ∧ (∀ a w', step w a = some w' → w'.earlysuspend_state ≠ w.earlysuspend_state →
        ∃ openOuts readOuts pick, a = Action.watcher openOuts readOuts pick) := by
  have hi : HistInv w := run_hist hrun (boot_hist ops hinit)
  refine ⟨(init_phase hinit).1, ?_, hi.phase, fun a w' hs hne => step_phase hs hne⟩
  cases hw : w.watcher with
  | notStarted => exact ⟨0, Or.inl (hi.idle hw)⟩
  | exited =>
    obtain ⟨n, hn⟩ := hi.stopped hw
    exact ⟨n, Or.inr hn⟩
  | sleepRead =>
    obtain ⟨n, _, hn⟩ := hi.running 0 (by rw [hw]; rfl)
    exact ⟨n, Or.inl hn⟩
  | memLock =>
    obtain ⟨n, _, hn⟩ := hi.running 1 (by rw [hw]; rfl)
    exact ⟨n, Or.inl hn⟩
  | memSet =>
    obtain ⟨n, _, hn⟩ := hi.running 1 (by rw [hw]; rfl)
    exact ⟨n, Or.inl hn⟩
  | memSignal =>
    obtain ⟨n, _, hn⟩ := hi.running 2 (by rw [hw]; rfl)
    exact ⟨n, Or.inl hn⟩
  | memUnlock =>
    obtain ⟨n, _, hn⟩ := hi.running 2 (by rw [hw]; rfl)
    exact ⟨n, Or.inl hn⟩
  | wakeRead =>
    obtain ⟨n, _, hn⟩ := hi.running 2 (by rw [hw]; rfl)
    exact ⟨n, Or.inl hn⟩
  | onLock =>
    obtain ⟨n, _, hn⟩ := hi.running 3 (by rw [hw]; rfl)
    exact ⟨n, Or.inl hn⟩
  | onSet =>
    obtain ⟨n, _, hn⟩ := hi.running 3 (by rw [hw]; rfl)
    exact ⟨n, Or.inl hn⟩
  | onSignal =>
    obtain ⟨n, _, hn⟩ := hi.running 0 (by rw [hw]; rfl)
    exact ⟨n, Or.inl hn⟩
  | onUnlock =>
    obtain ⟨n, _, hn⟩ := hi.running 0 (by rw [hw]; rfl)
    exact ⟨n, Or.inl hn⟩

/-- Witness for C7: the world in which a first enable call has completed; its
history is a successful sleep read followed by the watcher assigning `MEM`. -/
theorem phase_alternates_witness :
    autosuspend_earlysuspend_init envSync InitState.initial = some initSync
    ∧ run (boot initSync
          [Op.autosuspend_earlysuspend_enable, Op.autosuspend_earlysuspend_enable])
        schedEnableCompletes = some worldEnabled
    ∧ history worldEnabled.trace = ideal 2
    ∧ worldEnabled.earlysuspend_state = phaseAfter (history worldEnabled.trace) :=
  ⟨rfl, rfl, rfl,
    (phase_alternates envSync initSync
      [Op.autosuspend_earlysuspend_enable, Op.autosuspend_earlysuspend_enable]
      schedEnableCompletes worldEnabled rfl rfl).2.2.1⟩

/-- Claim C9. When the notification read of the watcher (the sleep read or the
wake read, after the retries of `TEMP_FAILURE_RETRY`) returns a negative
result, that step ends the watcher: it records the failed read and no
assignment, and leaves the globals (phase, `wait_for_earlysuspend`), the mutex
and the calls as they were. In every world reachable afterwards the watcher is
still exited and cannot move, the phase and the flag have the values they had,
and, the flag being set, an enable or disable call whose target differs from
that phase has not returned 0: it has not written yet, or it is in the loop, or
its write failed; once in the loop it stays there. -/
theorem watcher_death (w : World) (openOuts readOuts : List SysRet) (pick : Nat)
    (fd rd : SysRet) (opens reads : List SysRet)
    (hw : w.watcher = WatcherPc.sleepRead ∨ w.watcher = WatcherPc.wakeRead)
    (hopen : TEMP_FAILURE_RETRY openOuts = some (fd, opens))
    (hread : TEMP_FAILURE_RETRY (readOutcomes fd.ret readOuts) = some (rd, reads))
    (hneg : rd.ret < 0) :
    ∃ w', step w (Action.watcher openOuts readOuts pick) = some w'
      ∧ w'.watcher = WatcherPc.exited
      ∧ w'.toGlobals = w.toGlobals ∧ w'.mutex = w.mutex ∧ w'.calls = w.calls
      ∧ (w.watcher = WatcherPc.sleepRead → history w'.trace
          = history w.trace ++ [Obs.readFail Path.EARLYSUSPEND_WAIT_FOR_FB_SLEEP])
      ∧ (w.watcher = WatcherPc.wakeRead → history w'.trace
          = history w.trace ++ [Obs.readFail Path.EARLYSUSPEND_WAIT_FOR_FB_WAKE])
      ∧ ∀ as w'', run w' as = some w'' →
          w''.watcher = WatcherPc.exited
          ∧ w''.earlysuspend_state = w.earlysuspend_state
          ∧ w''.wait_for_earlysuspend = w.wait_for_earlysuspend
          ∧ (∀ o r p, step w'' (Action.watcher o r p) = none)
          ∧ (w.wait_for_earlysuspend = true →
              ∀ (tid : Nat) (c : Call) (t : Phase), w''.calls[tid]? = some c →
                c.op.target = some t → w.earlysuspend_state ≠ t →
                c.pc.notReturnedZero = true →
                ∀ bs v, run w'' bs = some v →
                  ∃ c', v.calls[tid]? = some c' ∧ c'.pc.notReturnedZero = true
                    ∧ (c.pc.pending = true → c'.pc.pending = true)) := by
  have key : ∀ (u : World), u.watcher = WatcherPc.exited → u.toGlobals = w.toGlobals →
      ∀ as w'', run u as = some w'' →
          w''.watcher = WatcherPc.exited
          ∧ w''.earlysuspend_state = w.earlysuspend_state
          ∧ w''.wait_for_earlysuspend = w.wait_for_earlysuspend
          ∧ (∀ o r p, step w'' (Action.watcher o r p) = none)
          ∧ (w.wait_for_earlysuspend = true →
              ∀ (tid : Nat) (c : Call) (t : Phase), w''.calls[tid]? = some c →
                c.op.target = some t → w.earlysuspend_state ≠ t →
                c.pc.notReturnedZero = true →
                ∀ bs v, run w'' bs = some v →
                  ∃ c', v.calls[tid]? = some c' ∧ c'.pc.notReturnedZero = true
                    ∧ (c.pc.pending = true → c'.pc.pending = true)) := by
    intro u hu hg as w'' hrun
    obtain ⟨g1, g2, g3, g4, _⟩ := exited_forever hu hrun
    have e2 : w''.earlysuspend_state = w.earlysuspend_state := by rw [g2, hg]
    have e3 : w''.wait_for_earlysuspend = w.wait_for_earlysuspend := by rw [g3, hg]
    refine ⟨g1, e2, e3, g4, ?_⟩
    intro hsync tid c t hc ht hne hp bs v hrun'
    exact (exited_forever g1 hrun').2.2.2.2 (e3.trans hsync) tid c t hc ht
      (by rw [e2]; exact hne) hp
  obtain ⟨⟨evs1, h1⟩, ⟨evs2, h2⟩⟩ := wait_for_fb_failed hopen hread hneg
  have hne : rd.ret ≠ 0 := by omega
  rcases hw with hw | hw
  · refine ⟨{ w.log Actor.watcher evs1 with watcher := WatcherPc.exited }, ?_, rfl, rfl, rfl,
      rfl, ?_, ?_, ?_⟩
    · simp [step, earlysuspend_thread_func, hw, h1, hne]
    · intro _
      show history (w.trace ++ evs1.map (fun e => (Actor.watcher, e))) = _
      rw [history_append, wait_for_fb_sleep_history h1]
      simp [hne]
    · intro hw'
      rw [hw] at hw'
      cases hw'
    · exact key { w.log Actor.watcher evs1 with watcher := WatcherPc.exited } rfl rfl
  · refine ⟨{ w.log Actor.watcher evs2 with watcher := WatcherPc.exited }, ?_, rfl, rfl, rfl,
      rfl, ?_, ?_, ?_⟩
    · simp [step, earlysuspend_thread_func, hw, h2, hne]
    · intro hw'
      rw [hw] at hw'
      cases hw'
    · intro _
      show history (w.trace ++ evs2.map (fun e => (Actor.watcher, e))) = _
      rw [history_append, wait_for_fb_wake_history h2]
      simp [hne]
    · exact key { w.log Actor.watcher evs2 with watcher := WatcherPc.exited } rfl rfl

/-- Witness for C9: the wake read fails (`EIO`) after an enable call has
completed with the phase `MEM`; the disable call that follows never returns 0. -/
theorem watcher_death_witness :
    worldBeforeDisable.watcher = WatcherPc.wakeRead
    ∧ worldBeforeDisable.earlysuspend_state = Phase.EARLYSUSPEND_MEM
    ∧ worldBeforeDisable.wait_for_earlysuspend = true
    ∧ ∃ w', step worldBeforeDisable
          (Action.watcher [{ ret := 5, errno := 0 }] [failed] 0) = some w'
        ∧ w'.watcher = WatcherPc.exited
        ∧ ∀ bs v, run w' bs = some v →
            ∃ c', v.calls[1]? = some c' ∧ c'.pc.notReturnedZero = true :=
  ⟨rfl, rfl, rfl,
    (watcher_death worldBeforeDisable [{ ret := 5, errno := 0 }] [failed] 0
      { ret := 5, errno := 0 } failed [{ ret := 5, errno := 0 }] [failed]
      (Or.inr rfl) rfl rfl (by decide)).imp
      (fun w' h => ⟨h.1, h.2.1, fun bs v hr =>
        ((h.2.2.2.2.2.2.2 [] w' rfl).2.2.2.2 rfl 1
          { op := Op.autosuspend_earlysuspend_disable, pc := CallPc.start }
          Phase.EARLYSUSPEND_ON (h.2.2.2.2.1 ▸ rfl) rfl (by decide) rfl bs v hr).imp
          (fun _ hc' => ⟨hc'.1, hc'.2.1⟩)⟩)⟩

/-- Claim C10 as stated fails: two enable calls wait on the condition when the
watcher, having assigned `MEM`, reaches the `pthread_cond_signal` of line 68;
the signal wakes call 0 only, and after the watcher has unlocked and call 0 has
returned 0, call 1 is still blocked on the condition although the phase is
`MEM`. -/
theorem signal_leaves_a_waiter_blocked :
    run (boot initSync
          [Op.autosuspend_earlysuspend_enable, Op.autosuspend_earlysuspend_enable])
        schedTwoBlocked = some worldTwoBlocked
    ∧ worldTwoBlocked.watcher = WatcherPc.memSignal
    ∧ worldTwoBlocked.earlysuspend_state = Phase.EARLYSUSPEND_MEM
    ∧ worldTwoBlocked.pcOf 0 = some CallPc.waiting
    ∧ worldTwoBlocked.pcOf 1 = some CallPc.waiting
    ∧ (step worldTwoBlocked (Action.watcher [] [] 0)).map
        (fun w => (w.watcher, w.pcOf 0, w.pcOf 1))
        = some (WatcherPc.memUnlock, some CallPc.reacquire, some CallPc.waiting)
    ∧ (run worldTwoBlocked schedAfterSignal).map
        (fun w => (w.watcher, w.earlysuspend_state, w.mutex, w.pcOf 0, w.pcOf 1))
        = some (WatcherPc.wakeRead, Phase.EARLYSUSPEND_MEM, none, some (CallPc.done 0),
            some CallPc.waiting) := by
  refine ⟨rfl, rfl, rfl, rfl, rfl, rfl, rfl⟩

/-- Claim C10, amended. In every world reachable after initialisation: the
watcher at the assignment of line 67 (76) holds the mutex, and its step sets
the phase to `MEM` (`ON`) and brings it to the `pthread_cond_signal` of line 68
(77), still holding the mutex; at that signal it holds the mutex, the phase is
the one just assigned, and its step leaves the phase alone and wakes one of
the calls waiting on the condition if there is any, every other call staying
where it is (a second waiting call is not woken by that signal). -/
theorem signal_wakes_one_waiter (r : InitResult) (ops : List Op) (as : List Action)
    (w : World) (hrun : run (boot r ops) as = some w)
    (openOuts readOuts : List SysRet) (pick : Nat) :
    (w.watcher = WatcherPc.memSet →
      w.mutex = some Actor.watcher
      ∧ ∃ w', step w (Action.watcher openOuts readOuts pick) = some w'
        ∧ w'.earlysuspend_state = Phase.EARLYSUSPEND_MEM
        ∧ w'.watcher = WatcherPc.memSignal ∧ w'.mutex = some Actor.watcher
        ∧ w'.calls = w.calls)
    ∧ (w.watcher = WatcherPc.onSet →
      w.mutex = some Actor.watcher
      ∧ ∃ w', step w (Action.watcher openOuts readOuts pick) = some w'
        ∧ w'.earlysuspend_state = Phase.EARLYSUSPEND_ON
        ∧ w'.watcher = WatcherPc.onSignal ∧ w'.mutex = some Actor.watcher
        ∧ w'.calls = w.calls)
    ∧ (∀ p : Phase,
        (w.watcher = WatcherPc.memSignal ∧ p = Phase.EARLYSUSPEND_MEM)
          ∨ (w.watcher = WatcherPc.onSignal ∧ p = Phase.EARLYSUSPEND_ON) →
      w.mutex = some Actor.watcher ∧ w.earlysuspend_state = p
      ∧ ∃ w', step w (Action.watcher openOuts readOuts pick) = some w'
        ∧ w'.earlysuspend_state = p ∧ w'.mutex = some Actor.watcher
        ∧ (w'.watcher = WatcherPc.memUnlock ∨ w'.watcher = WatcherPc.onUnlock)
        ∧ (((∀ tid, w.pcOf tid ≠ some CallPc.waiting) ∧ w'.calls = w.calls)
          ∨ ∃ tid, w.pcOf tid = some CallPc.waiting
              ∧ w'.pcOf tid = some CallPc.reacquire
              ∧ ∀ tid', tid' ≠ tid → w'.calls[tid']? = w.calls[tid']?)) := by
  have hi : Inv w := run_inv hrun (boot_inv r ops)
  have hsig : SigInv w := run_sig hrun (boot_sig r ops)
  refine ⟨?_, ?_, ?_⟩
  · intro hw
    have hown := hi.watcherOwns (by rw [hw]; rfl)
    exact ⟨hown,
      { w.log Actor.watcher [Event.assign Phase.EARLYSUSPEND_MEM] with
          earlysuspend_state := Phase.EARLYSUSPEND_MEM, watcher := WatcherPc.memSignal },
      by simp [step, earlysuspend_thread_func, hw], rfl, rfl, hown, rfl⟩
  · intro hw
    have hown := hi.watcherOwns (by rw [hw]; rfl)
    exact ⟨hown,
      { w.log Actor.watcher [Event.assign Phase.EARLYSUSPEND_ON] with
          earlysuspend_state := Phase.EARLYSUSPEND_ON, watcher := WatcherPc.onSignal },
      by simp [step, earlysuspend_thread_func, hw], rfl, rfl, hown, rfl⟩
  · intro p hw
    obtain ⟨_, h2, _, h4⟩ := pthread_cond_signal_history pick w
    rcases hw with ⟨hw, rfl⟩ | ⟨hw, rfl⟩
    · have hown := hi.watcherOwns (by rw [hw]; rfl)
      have hp := hsig.atMem (Or.inl hw)
      refine ⟨hown, hp,
        { pthread_cond_signal Actor.watcher pick w with watcher := WatcherPc.memUnlock },
        by simp [step, earlysuspend_thread_func, hw], h2.trans hp, h4.trans hown,
        Or.inl rfl, ?_⟩
      exact pthread_cond_signal_calls pick w
    · have hown := hi.watcherOwns (by rw [hw]; rfl)
      have hp := hsig.atOn (Or.inl hw)
      refine ⟨hown, hp,
        { pthread_cond_signal Actor.watcher pick w with watcher := WatcherPc.onUnlock },
        by simp [step, earlysuspend_thread_func, hw], h2.trans hp, h4.trans hown,
        Or.inr rfl, ?_⟩
      exact pthread_cond_signal_calls pick w

/-- Witness for the amended C10: the world with two waiting calls at the
signal of line 68. -/
theorem signal_wakes_one_waiter_witness :
    worldTwoBlocked.mutex = some Actor.watcher
    ∧ worldTwoBlocked.earlysuspend_state = Phase.EARLYSUSPEND_MEM
    ∧ ∃ w', step worldTwoBlocked (Action.watcher [] [] 1) = some w'
        ∧ w'.earlysuspend_state = Phase.EARLYSUSPEND_MEM ∧ w'.mutex = some Actor.watcher
        ∧ (w'.watcher = WatcherPc.memUnlock ∨ w'.watcher = WatcherPc.onUnlock)
        ∧ (((∀ tid, worldTwoBlocked.pcOf tid ≠ some CallPc.waiting)
              ∧ w'.calls = worldTwoBlocked.calls)
          ∨ ∃ tid, worldTwoBlocked.pcOf tid = some CallPc.waiting
              ∧ w'.pcOf tid = some CallPc.reacquire
              ∧ ∀ tid', tid' ≠ tid → w'.calls[tid']? = worldTwoBlocked.calls[tid']?) :=
  (signal_wakes_one_waiter initSync
    [Op.autosuspend_earlysuspend_enable, Op.autosuspend_earlysuspend_enable]
    schedTwoBlocked worldTwoBlocked rfl [] [] 1).2.2 Phase.EARLYSUSPEND_MEM
    (Or.inl ⟨rfl, rfl⟩)

end Earlysuspend
